import Mathlib

/-!
Tomahawk track resolution: identity registry and resolve command.

A shallow embedding of

* `src/libtomahawk/artist.cpp` (`Artist::get`), and
* `src/libtomahawk/database/databasecommand_resolve.cpp`
  (`DatabaseCommand_Resolve::exec`, `resolve`, `fullTextResolve`),

followed by theorems about them.

Conventions of the embedding:

* a `QString` is its sequence of characters;
* a shared pointer is an `Option` (`none` is the null pointer) whose payload
  carries the address of the object it points to, so that equality of
  pointers is identity of objects;
* `unsigned int` values are natural numbers, `int` values are integers, and
  every conversion between the two that the code performs is written out
  (`toUInt`, `castInt`);
* `float` scores are only ever copied by the code, never computed with; they
  are rational numbers here;
* signals emitted and storage queries issued are recorded, in order, in a
  list of `Event`s.
-/

set_option autoImplicit false

namespace Tomahawk

/-- A `QString`, as the sequence of its characters. -/
abbrev QString := List Char

/-! ## `QHash< unsigned int, T >` -/

namespace QHash

/-- `QHash::contains( key )`. -/
def contains {V : Type} (h : List (Nat × V)) (k : Nat) : Bool :=
  h.any (fun e => e.1 == k)

/-- `QHash::value( key )`: the stored value, or a default-constructed value
(`dflt`) when the key is absent. -/
def value {V : Type} (h : List (Nat × V)) (k : Nat) (dflt : V) : V :=
  match h.find? (fun e => e.1 == k) with
  | some e => e.2
  | none => dflt

/-- `QHash::insert( key, value )`: an item already stored under the key is
replaced. -/
def insert {V : Type} (h : List (Nat × V)) (k : Nat) (v : V) : List (Nat × V) :=
  (k, v) :: h.filter (fun e => e.1 != k)

end QHash

/-! ## Artists, albums and the identity registry -/

/-- An `Artist` object (`Artist::Artist( id, name )`): `addr` is the identity
of the allocated object, the other fields are the members set by the
constructor. -/
structure Artist where
  addr : Nat
  m_id : Nat
  m_name : QString
  m_sortname : QString
  deriving DecidableEq, Repr

/-- The type `artist_ptr`; `none` is the null pointer `artist_ptr()`. -/
abbrev artist_ptr := Option Artist

/-- An `Album` object, holding a reference to its artist. -/
structure Album where
  addr : Nat
  m_id : Nat
  m_name : QString
  m_artist : artist_ptr
  deriving DecidableEq, Repr

/-- The type `album_ptr`. -/
abbrev album_ptr := Option Album

/-- The process-wide mutable state the code touches: the function-static
caches `s_artists` and `s_albums`, the allocator (next fresh object address)
and the `uuid()` generator (next fresh value). -/
structure State where
  s_artists : List (Nat × artist_ptr)
  s_albums : List (Nat × album_ptr)
  heapNext : Nat
  uuidNext : Nat
  deriving DecidableEq, Repr

/-- The id-based accessor `Artist::get( unsigned int id, const QString& name )`
(artist.cpp, lines 49-66). `sortname` is `DatabaseImpl::sortname( name, true )`,
which the constructor calls. -/
def Artist.get (sortname : QString → QString) (st : State) (id : Nat) (name : QString) :
    artist_ptr × State :=
  if QHash.contains st.s_artists id then
    (QHash.value st.s_artists id none, st)
  else
    let a : artist_ptr :=
      some { addr := st.heapNext, m_id := id, m_name := name, m_sortname := sortname name }
    let st1 : State := { st with heapNext := st.heapNext + 1 }
    if id > 0 then
      (a, { st1 with s_artists := QHash.insert st1.s_artists id a })
    else
      (a, st1)

/-- Modelled from the spec: `Album::get( id, name, artist )` lives in album.cpp,
which is not among the sources; section 4.1 gives albums the same get-or-create
contract as artists (cached entity if present, otherwise a new one, inserted
only if `id > 0`), the album holding a reference to its artist. -/
def Album.get (st : State) (id : Nat) (name : QString) (artist : artist_ptr) :
    album_ptr × State :=
  if QHash.contains st.s_albums id then
    (QHash.value st.s_albums id none, st)
  else
    let a : album_ptr :=
      some { addr := st.heapNext, m_id := id, m_name := name, m_artist := artist }
    let st1 : State := { st with heapNext := st.heapNext + 1 }
    if id > 0 then
      (a, { st1 with s_albums := QHash.insert st1.s_albums id a })
    else
      (a, st1)

/-- A sequence of `Artist::get( id, name )` calls, run one after the other;
the final state is returned. -/
def Artist.getMany (sortname : QString → QString) : State → List (Nat × QString) → State
  | st, [] => st
  | st, (id, name) :: calls => Artist.getMany sortname (Artist.get sortname st id name).2 calls

/-! ## Conversions and `QString::arg` -/

/-- `QVariant::toUInt()` of an SQL integer column: `NULL` gives 0, an integer
is truncated to 32 bits. -/
def toUInt : Option Int → Nat
  | none => 0
  | some v => (v % 4294967296).toNat

/-- `QVariant::toString()` of an SQL text column: `NULL` gives the empty
string. -/
def toQString : Option QString → QString
  | none => []
  | some s => s

/-- Conversion of an `int` to `unsigned int` (an `int` argument passed for an
`unsigned int` parameter). -/
def toUnsigned (i : Int) : Nat := (i % 4294967296).toNat

/-- The cast `(int)u` of an `unsigned int`. -/
def castInt (u : Nat) : Int :=
  if u % 4294967296 < 2147483648 then ((u % 4294967296 : Nat) : Int)
  else ((u % 4294967296 : Nat) : Int) - 4294967296

/-- `QChar::digitValue()`, for the ASCII digits. -/
def digitValue (c : Char) : Option Nat :=
  if c.isDigit then some (c.toNat - 48) else none

/-- A piece of a string as `QString::arg` reads it: a plain character, or a
place marker (`%1`, `%L2`, `%15`, ...) with its number and its text. -/
inductive Piece where
  | text (c : Char)
  | marker (n : Nat) (raw : List Char)
  deriving DecidableEq, Repr

/-- What the scanner of `QString::arg` has read of a possible place marker. -/
inductive Pending where
  | plain
  | percent (sawL : Bool)
  | digit (raw : List Char) (d : Nat)
  deriving DecidableEq, Repr

/-- The plain characters a `Pending` state stands for when no marker follows. -/
def Pending.flush : Pending → List Piece
  | .plain => []
  | .percent false => [.text '%']
  | .percent true => [.text '%', .text 'L']
  | .digit raw d => [.marker d raw]

/-- The scanner of `QString::arg` (Qt, `findArgEscapes`): a place marker is
`%`, an optional `L`, and one or two digits; everything else is plain text. -/
def scanArg : Pending → List Char → List Piece
  | p, [] => p.flush
  | .plain, c :: cs =>
    if c = '%' then scanArg (.percent false) cs else .text c :: scanArg .plain cs
  | .percent false, c :: cs =>
    if c = 'L' then scanArg (.percent true) cs
    else match digitValue c with
      | some d => scanArg (.digit ['%', c] d) cs
      | none =>
        if c = '%' then .text '%' :: scanArg (.percent false) cs
        else .text '%' :: .text c :: scanArg .plain cs
  | .percent true, c :: cs =>
    match digitValue c with
    | some d => scanArg (.digit ['%', 'L', c] d) cs
    | none =>
      if c = '%' then .text '%' :: .text 'L' :: scanArg (.percent false) cs
      else .text '%' :: .text 'L' :: .text c :: scanArg .plain cs
  | .digit raw d, c :: cs =>
    match digitValue c with
    | some d2 => .marker (10 * d + d2) (raw ++ [c]) :: scanArg .plain cs
    | none =>
      if c = '%' then .marker d raw :: scanArg (.percent false) cs
      else .marker d raw :: .text c :: scanArg .plain cs

/-- The lowest place-marker number among the pieces, if there is a marker. -/
def minMarker : List Piece → Option Nat
  | [] => none
  | .text _ :: ps => minMarker ps
  | .marker n _ :: ps =>
    match minMarker ps with
    | none => some n
    | some m => some (min n m)

/-- The text of a piece once the markers numbered `m` are replaced by `a`. -/
def Piece.subst (m : Nat) (a : QString) : Piece → QString
  | .text c => [c]
  | .marker n raw => if n = m then a else raw

/-- `QString::arg( const QString& a )`: every occurrence of the
lowest-numbered place marker is replaced by `a`; a string without place marker
is returned unchanged. -/
def QString.arg (s a : QString) : QString :=
  match minMarker (scanArg .plain s) with
  | none => s
  | some m => (scanArg .plain s).flatMap (Piece.subst m a)

/-! ## Sources, results, queries and the storage layer -/

/-- The type `collection_ptr`: a handle on a `Collection` object, `none` being
the null pointer. -/
abbrev collection_ptr := Option Nat

/-- A `Source`, as far as the command looks at it: `userName()`, `isOnline()`
and `collection()`. -/
structure Source where
  userName : QString
  isOnline : Bool
  collection : collection_ptr
  deriving DecidableEq, Repr

/-- The type `source_ptr`. -/
abbrev source_ptr := Option Source

/-- Modelled from the spec: the source registry `SourceList` (sourcelist.h is
not among the sources); section 6 gives `getLocalSource() -> Source` and
`getSource(id) -> Source|absent`. -/
structure SourceList where
  getLocal : Source
  get : Nat → source_ptr

/-- The type `QVariantMap`, as a list of key/value pairs without repeated
keys. -/
abbrev QVariantMap := List (QString × QString)

/-- The assignment `attr[ k ] = v` on a `QVariantMap`. -/
def QVariantMap.set (m : QVariantMap) (k v : QString) : QVariantMap :=
  m.filter (fun e => e.1 != k) ++ [(k, v)]

/-- A `Result` object: the members written by the setters the command calls,
and the score. -/
structure Result where
  url : QString
  modificationTime : Nat
  size : Nat
  mimetype : QString
  duration : Nat
  bitrate : Nat
  artist : artist_ptr
  composer : artist_ptr
  album : album_ptr
  discNumber : Nat
  track : QString
  rid : Nat
  albumPos : Nat
  trackId : Nat
  attributes : QVariantMap
  collection : collection_ptr
  score : ℚ
  deriving DecidableEq, Repr

/-- The type `result_ptr`. -/
abbrev result_ptr := Option Result

/-- Modelled from the spec: `Result::get( url )` lives in result.cpp, which is
not among the sources; by sections 3 and 4.4 it hands out a Result for the
locator that carries the default score, all other members still unset.
`dflt` is that default score. -/
def Result.get (dflt : ℚ) (url : QString) : Result :=
  { url := url, modificationTime := 0, size := 0, mimetype := [], duration := 0,
    bitrate := 0, artist := none, composer := none, album := none, discNumber := 0,
    track := [], rid := 0, albumPos := 0, trackId := 0, attributes := [],
    collection := none, score := dflt }

/-- A `Query`, as far as the command looks at it: `id()`, `artist()`,
`track()`, `album()`, `fullTextQuery()`, `resultHint()` and
`isFullTextQuery()`. -/
structure Query where
  id : QString
  artist : QString
  track : QString
  album : QString
  fullTextQuery : QString
  resultHint : QString
  isFullTextQuery : Bool
  deriving DecidableEq, Repr

/-- A candidate `QPair<int, float>`: identifier and similarity score. -/
abbrev scorepair_t := Int × ℚ

/-- One row of the file join: the 21 selected columns, in the order of the
`SELECT` list (indices 0 to 20). Every column may be `NULL` (`none`). -/
structure Row where
  url : Option QString
  mtime : Option Int
  size : Option Int
  md5 : Option QString
  mimetype : Option QString
  duration : Option Int
  bitrate : Option Int
  fj_artist : Option Int
  fj_album : Option Int
  fj_track : Option Int
  fj_composer : Option Int
  discnumber : Option Int
  artname : Option QString
  albname : Option QString
  trkname : Option QString
  cmpname : Option QString
  source : Option Int
  albumpos : Option Int
  artid : Option Int
  albid : Option Int
  cmpid : Option Int
  deriving DecidableEq, Repr

/-- The part of the `WHERE` clause that the command fills in (the `%1` of the
file join statement). -/
inductive Where where
  | artistsAndTracks (arts trks : List Int)
  | tracks (trks : List Int)
  | zero
  deriving DecidableEq, Repr

/-- SQL `column IN ( ids )`; a `NULL` column is in no list. -/
def sqlIn (col : Option Int) (ids : List Int) : Bool :=
  match col with
  | none => false
  | some v => ids.contains v

/-- SQL meaning of the filled-in condition on a row; `0` is false. -/
def Where.eval : Where → Row → Bool
  | .artistsAndTracks arts trks, row => sqlIn row.fj_artist arts && sqlIn row.fj_track trks
  | .tracks trks, row => sqlIn row.fj_track trks
  | .zero, _ => false

/-- The storage layer `DatabaseImpl* lib`, as the command uses it.
`fileJoin` holds the rows of `file, file_join, artist, track LEFT JOIN album
LEFT JOIN artist AS composer` that satisfy the three fixed join equalities;
`artistName`, `albumInfo` and `trackAttributes` are the result rows of the
three other `SELECT` statements; `searchTable` takes the table, the text and
the limit (`none` when the call leaves the limit to its default). -/
structure DatabaseImpl where
  searchTable : QString → QString → Option Nat → List scorepair_t
  fileJoin : List Row
  artistName : Int → List (Option QString)
  albumInfo : Int → List (Option QString × Option Int × Option QString)
  trackAttributes : Nat → List (Option QString × Option QString)
  resultFromHint : Query → result_ptr
  artistId : QString → Bool → Int
  sortname : QString → QString

/-- Everything outside the command that one run reads: the storage layer, the
source registry, `Collection::source()` for every collection handle, and the
score of a Result just obtained from `Result::get`. -/
structure Env where
  lib : DatabaseImpl
  sourceList : SourceList
  collectionSource : Nat → source_ptr
  defaultScore : ℚ

/-- What one run of the command does towards the outside, in order: calls of
`searchTable`, the SQL statements executed, and the signals emitted. -/
inductive Event where
  | searchTable (table text : QString) (limit : Option Nat)
  | filesQuery (cond : Where)
  | attrQuery (trackId : Nat)
  | artistQuery (id : Int)
  | albumQuery (id : Int)
  | results (qid : QString) (res : List Result)
  | artists (qid : QString) (l : List artist_ptr)
  | albums (qid : QString) (l : List album_ptr)
  deriving DecidableEq, Repr

/-- The event is the file join statement. -/
def Event.isFilesQuery : Event → Bool
  | .filesQuery _ => true
  | _ => false

/-- The event is a `track_attributes` statement. -/
def Event.isAttrQuery : Event → Bool
  | .attrQuery _ => true
  | _ => false

/-- The event is a call of `searchTable`. -/
def Event.isSearch : Event → Bool
  | .searchTable _ _ _ => true
  | _ => false

/-- The event is a `results` signal. -/
def Event.isResults : Event → Bool
  | .results _ _ => true
  | _ => false

/-- The event is an `artists` signal. -/
def Event.isArtists : Event → Bool
  | .artists _ _ => true
  | _ => false

/-- The event is an `albums` signal. -/
def Event.isAlbums : Event → Bool
  | .albums _ _ => true
  | _ => false

/-- The name-based accessor `Artist::get( const QString& name, bool autoCreate )`
(artist.cpp, lines 38-46). -/
def Artist.getByName (lib : DatabaseImpl) (st : State) (name : QString) (autoCreate : Bool) :
    artist_ptr × State :=
  let artid : Int := lib.artistId name autoCreate
  if artid < 1 && autoCreate then
    (none, st)
  else
    Artist.get lib.sortname st (toUnsigned artid) name

/-! ## `DatabaseCommand_Resolve` -/

/-- The head of the row loop (databasecommand_resolve.cpp, lines 136-153 and
294-311): the Source of the row and the locator. `none` is the `continue` taken
when a non-zero source id resolves to no Source. -/
def rowSource (sl : SourceList) (row : Row) : Option (Source × QString) :=
  let url : QString := toQString row.url
  if toUInt row.source == 0 then
    some (sl.getLocal, url)
  else
    match sl.get (toUInt row.source) with
    | none => none
    | some s => some (s, QString.arg (QString.arg "servent://%1\t%2".toList s.userName) url)

/-- The Result of a row before its attributes are read (lines 155-175 and
313-333): `Result::get`, the three registry look-ups, and the setters up to
`setTrackId`. -/
def populate (env : Env) (st : State) (url : QString) (row : Row) : Result × State :=
  let result := Result.get env.defaultScore url
  let artist := Artist.get env.lib.sortname st (toUInt row.artid) (toQString row.artname)
  let album := Album.get artist.2 (toUInt row.albid) (toQString row.albname) artist.1
  let composer := Artist.get env.lib.sortname album.2 (toUInt row.cmpid) (toQString row.cmpname)
  let st3 := composer.2
  ({ result with
      modificationTime := toUInt row.mtime
      size := toUInt row.size
      mimetype := toQString row.mimetype
      duration := toUInt row.duration
      bitrate := toUInt row.bitrate
      artist := artist.1
      composer := composer.1
      album := album.1
      discNumber := toUInt row.discnumber
      track := toQString row.trkname
      rid := st3.uuidNext
      albumPos := toUInt row.albumpos
      trackId := toUInt row.fj_track },
   { st3 with uuidNext := st3.uuidNext + 1 })

/-- The tail of the row loop (lines 177-189 and 344-357): the rows of
`track_attributes` for the track are gathered into a map, which is attached to
the Result together with the Collection of the Source. -/
def attachAttributes (lib : DatabaseImpl) (s : Source) (result : Result) : Result :=
  let attr : QVariantMap :=
    (lib.trackAttributes result.trackId).foldl
      (fun m kv => QVariantMap.set m (toQString kv.1) (toQString kv.2)) []
  { result with attributes := attr, collection := s.collection }

/-- The row loop of `resolve` (lines 134-191): the state after the loop, the
list `res`, and the `track_attributes` statements executed. -/
def resolveRows (env : Env) : State → List Row → State × List Result × List Event
  | st, [] => (st, [], [])
  | st, row :: rows =>
    match rowSource env.sourceList row with
    | none => resolveRows env st rows
    | some (s, url) =>
      let p := populate env st url row
      let result := attachAttributes env.lib s p.1
      let rest := resolveRows env p.2 rows
      (rest.1, result :: rest.2.1, Event.attrQuery p.1.trackId :: rest.2.2)

/-- The three `searchTable` calls of `resolve` (lines 84-86). -/
def resolveSearches (q : Query) : List Event :=
  [Event.searchTable "artist".toList q.artist none,
   Event.searchTable "track".toList q.track none,
   Event.searchTable "album".toList q.album none]

/-- The function `DatabaseCommand_Resolve::resolve` (lines 77-194). -/
def resolve (env : Env) (q : Query) (st : State) : State × List Event :=
  let artists := env.lib.searchTable "artist".toList q.artist none
  let tracks := env.lib.searchTable "track".toList q.track none
  if artists.length == 0 || tracks.length == 0 then
    (st, resolveSearches q ++ [Event.results q.id []])
  else
    let cond := Where.artistsAndTracks (artists.map Prod.fst) (tracks.map Prod.fst)
    let loop := resolveRows env st (env.lib.fileJoin.filter cond.eval)
    (loop.1, resolveSearches q ++ Event.filesQuery cond :: loop.2.2 ++ [Event.results q.id loop.2.1])

/-- The score back-fill of `fullTextResolve` (lines 335-342): the first
candidate whose identifier equals `(int)result->trackId()` gives its score,
and the scan stops there. -/
def backfillScore : List scorepair_t → Result → Result
  | [], result => result
  | p :: rest, result =>
    if p.1 = castInt result.trackId then { result with score := p.2 }
    else backfillScore rest result

/-- The row loop of `fullTextResolve` (lines 292-359). -/
def fullTextRows (env : Env) (trackPairs : List scorepair_t) :
    State → List Row → State × List Result × List Event
  | st, [] => (st, [], [])
  | st, row :: rows =>
    match rowSource env.sourceList row with
    | none => fullTextRows env trackPairs st rows
    | some (s, url) =>
      let p := populate env st url row
      let scored := backfillScore trackPairs p.1
      let result := attachAttributes env.lib s scored
      let rest := fullTextRows env trackPairs p.2 rows
      (rest.1, result :: rest.2.1, Event.attrQuery scored.trackId :: rest.2.2)

/-- The inner loop over the rows of `SELECT name FROM artist WHERE id = ...`
(lines 217-221). -/
def artistListOf (sortname : QString → QString) (id : Int) :
    State → List (Option QString) → State × List artist_ptr
  | st, [] => (st, [])
  | st, name :: names =>
    let a := Artist.get sortname st (toUnsigned id) (toQString name)
    let rest := artistListOf sortname id a.2 names
    (rest.1, a.1 :: rest.2)

/-- The loop over the artist candidates (lines 208-224): one statement and one
`artists` signal per candidate. -/
def artistSuggestions (env : Env) (qid : QString) : State → List scorepair_t → State × List Event
  | st, [] => (st, [])
  | st, artistPair :: pairs =>
    let l := artistListOf env.lib.sortname artistPair.1 st (env.lib.artistName artistPair.1)
    let rest := artistSuggestions env qid l.1 pairs
    (rest.1, Event.artistQuery artistPair.1 :: Event.artists qid l.2 :: rest.2)

/-- The inner loop over the rows of the album statement (lines 234-239). -/
def albumListOf (sortname : QString → QString) (id : Int) :
    State → List (Option QString × Option Int × Option QString) → State × List album_ptr
  | st, [] => (st, [])
  | st, r :: rs =>
    let artist := Artist.get sortname st (toUInt r.2.1) (toQString r.2.2)
    let album := Album.get artist.2 (toUnsigned id) (toQString r.1) artist.1
    let rest := albumListOf sortname id album.2 rs
    (rest.1, album.1 :: rest.2)

/-- The loop over the album candidates (lines 225-242): one statement and one
`albums` signal per candidate. -/
def albumSuggestions (env : Env) (qid : QString) : State → List scorepair_t → State × List Event
  | st, [] => (st, [])
  | st, albumPair :: pairs =>
    let l := albumListOf env.lib.sortname albumPair.1 st (env.lib.albumInfo albumPair.1)
    let rest := albumSuggestions env qid l.1 pairs
    (rest.1, Event.albumQuery albumPair.1 :: Event.albums qid l.2 :: rest.2)

/-- The three `searchTable` calls of `fullTextResolve` (lines 204-206). -/
def fullTextSearches (q : Query) : List Event :=
  [Event.searchTable "artist".toList q.fullTextQuery (some 20),
   Event.searchTable "track".toList q.fullTextQuery (some 20),
   Event.searchTable "album".toList q.fullTextQuery (some 20)]

/-- The function `DatabaseCommand_Resolve::fullTextResolve` (lines 197-362). -/
def fullTextResolve (env : Env) (q : Query) (st : State) : State × List Event :=
  let artistPairs := env.lib.searchTable "artist".toList q.fullTextQuery (some 20)
  let trackPairs := env.lib.searchTable "track".toList q.fullTextQuery (some 20)
  let albumPairs := env.lib.searchTable "album".toList q.fullTextQuery (some 20)
  let arts := artistSuggestions env q.id st artistPairs
  let albs := albumSuggestions env q.id arts.1 albumPairs
  let head := fullTextSearches q ++ arts.2 ++ albs.2
  if artistPairs.length == 0 && trackPairs.length == 0 && albumPairs.length == 0 then
    (albs.1, head ++ [Event.results q.id []])
  else
    let cond := if trackPairs.length > 0 then Where.tracks (trackPairs.map Prod.fst) else Where.zero
    let loop := fullTextRows env trackPairs albs.1 (env.lib.fileJoin.filter cond.eval)
    (loop.1, head ++ Event.filesQuery cond :: loop.2.2 ++ [Event.results q.id loop.2.1])

/-- The strategy selection at the end of `exec` (lines 70-73). -/
def normalResolve (env : Env) (q : Query) (st : State) : State × List Event :=
  if q.isFullTextQuery then fullTextResolve env q st else resolve env q st

/-- The function `DatabaseCommand_Resolve::exec` (lines 43-74). The outcome is
`none` when the run dereferences a null pointer: in the hint condition
`result->collection()->source()->isOnline()` is evaluated as soon as the result
and its collection are non-null, whether or not `source()` is null. -/
def exec (env : Env) (q : Query) (st : State) : Option (State × List Event) :=
  if !q.resultHint.isEmpty then
    match env.lib.resultFromHint q with
    | none => some (normalResolve env q st)
    | some result =>
      match result.collection with
      | none => some (normalResolve env q st)
      | some c =>
        match env.collectionSource c with
        | none => none
        | some s =>
          if s.isOnline then some (st, [Event.results q.id [result]])
          else some (normalResolve env q st)
  else
    some (normalResolve env q st)

/-- The Results a signal carries (none for the other events). -/
def Event.resultsOf : Event → List Result
  | .results _ res => res
  | _ => []

/-- All Results signalled in a run, in order. -/
def emittedResults (trace : List Event) : List Result :=
  trace.flatMap Event.resultsOf

/-- The Result `r` is the one assembled from the joined row `row`: its locator
and Collection are those of the row's Source, and its scalar members are the
row's columns. -/
def Result.fromRow (sl : SourceList) (row : Row) (r : Result) : Prop :=
  (∃ s : Source, rowSource sl row = some (s, r.url) ∧ r.collection = s.collection) ∧
  r.modificationTime = toUInt row.mtime ∧
  r.size = toUInt row.size ∧
  r.mimetype = toQString row.mimetype ∧
  r.duration = toUInt row.duration ∧
  r.bitrate = toUInt row.bitrate ∧
  r.discNumber = toUInt row.discnumber ∧
  r.track = toQString row.trkname ∧
  r.albumPos = toUInt row.albumpos ∧
  r.trackId = toUInt row.fj_track

/-- The pointers returned by a sequence of `Artist::get( id, name )` calls run
one after the other (`Artist.getMany` is the state they leave). -/
def Artist.getEach (sortname : QString → QString) :
    State → List (Nat × QString) → List artist_ptr
  | _, [] => []
  | st, (id, name) :: calls =>
    (Artist.get sortname st id name).1
      :: Artist.getEach sortname (Artist.get sortname st id name).2 calls

/-- One album look-up through the identity registry: the artist of the album
is resolved first (`Artist::get( artistId, artistName )`), then the album
(`Album::get( id, name, artist )`). The call is given as
`(id, name, artistId, artistName)`. -/
def Album.resolve (sortname : QString → QString) (st : State)
    (call : Nat × QString × Nat × QString) : album_ptr × State :=
  Album.get (Artist.get sortname st call.2.2.1 call.2.2.2).2 call.1 call.2.1
    (Artist.get sortname st call.2.2.1 call.2.2.2).1

/-- The state left by a sequence of album look-ups run one after the other. -/
def Album.getMany (sortname : QString → QString) :
    State → List (Nat × QString × Nat × QString) → State
  | st, [] => st
  | st, call :: calls => Album.getMany sortname (Album.resolve sortname st call).2 calls

/-- The pointers returned by a sequence of album look-ups run one after the
other. -/
def Album.getEach (sortname : QString → QString) :
    State → List (Nat × QString × Nat × QString) → List album_ptr
  | _, [] => []
  | st, call :: calls =>
    (Album.resolve sortname st call).1
      :: Album.getEach sortname (Album.resolve sortname st call).2 calls

/-- The registry calls of the artist loop of `fullTextResolve`: for each artist
candidate, in order, one call per row of its `artist` statement, with the id of
the candidate and the name of the row. -/
def artistCalls (lib : DatabaseImpl) (pairs : List scorepair_t) : List (Nat × QString) :=
  pairs.flatMap (fun p => (lib.artistName p.1).map (fun name => (toUnsigned p.1, toQString name)))

/-- The registry calls of the album loop of `fullTextResolve`: for each album
candidate, in order, one look-up per row of its `album` statement, with the id
of the candidate, the album name of the row, and the artist id and artist name
of the row. -/
def albumCalls (lib : DatabaseImpl) (pairs : List scorepair_t) :
    List (Nat × QString × Nat × QString) :=
  pairs.flatMap (fun p =>
    (lib.albumInfo p.1).map (fun r => (toUnsigned p.1, toQString r.1, toUInt r.2.1, toQString r.2.2)))

/-- The Artists an `artists` signal carries (none for the other events). -/
def Event.artistsOf : Event → List artist_ptr
  | .artists _ l => l
  | _ => []

/-- The Albums an `albums` signal carries (none for the other events). -/
def Event.albumsOf : Event → List album_ptr
  | .albums _ l => l
  | _ => []

/-- Every entry of the two caches is a non-null pointer to an entity that
carries the id it is filed under. -/
def State.filed (st : State) : Prop :=
  (∀ e ∈ st.s_artists, ∃ a : Artist, e.2 = some a ∧ a.m_id = e.1) ∧
  (∀ e ∈ st.s_albums, ∃ a : Album, e.2 = some a ∧ a.m_id = e.1)

/-! ## Sample data

Concrete inputs on which the definitions above are evaluated. -/

/-- The state at process start: empty caches, nothing allocated yet. -/
def State.initial : State :=
  { s_artists := [], s_albums := [], heapNext := 0, uuidNext := 0 }

/-- A sort-name normalisation to evaluate with: lower-casing. -/
def sampleSortname (s : QString) : QString := s.map Char.toLower

/-- A row of the file join with the given url, artist id, track id and source
id; no album, no composer. -/
def sampleRow (url : String) (artist track : Int) (source : Option Int) : Row :=
  { url := some url.toList, mtime := some 1300000000, size := some 4096, md5 := none,
    mimetype := some "audio/mpeg".toList, duration := some 320, bitrate := some 192,
    fj_artist := some artist, fj_album := none, fj_track := some track, fj_composer := none,
    discnumber := none, artname := some "Daft Punk".toList, albname := none,
    trkname := some "One More Time".toList, cmpname := none, source := source,
    albumpos := some 1, artid := some artist, albid := none, cmpid := none }

/-- A small catalog: artist 1 ("Daft Punk"), tracks 10 and 11, album 5; a
local file, a file of source 2, a file of the unknown source 9, and another
local file. `searchTable` knows the texts "daft punk", "one more time" and, for
the full-text search, "daft" (track 10 twice, with two scores) and "punk"
(artist and album candidates only). -/
def sampleLib : DatabaseImpl :=
  { searchTable := fun table text _ =>
      if table = "artist".toList then
        (if text = "daft punk".toList then [(1, 3/4)]
         else if text = "daft".toList ∨ text = "punk".toList then [(1, 1/2)] else [])
      else if table = "track".toList then
        (if text = "one more time".toList then [(10, 1/4), (11, 1/2)]
         else if text = "daft".toList then [(10, 1/2), (10, 3/4), (11, 1/4)] else [])
      else if table = "album".toList then
        (if text = "daft".toList ∨ text = "punk".toList then [(5, 1)] else [])
      else [],
    fileJoin :=
      [sampleRow "/m/a.mp3" 1 10 none, sampleRow "b.mp3" 1 10 (some 2),
       sampleRow "c.mp3" 1 11 (some 9), sampleRow "/m/d.mp3" 1 12 (some 0)],
    artistName := fun id => if id = 1 then [some "Daft Punk".toList] else [],
    albumInfo := fun id =>
      if id = 5 then [(some "Discovery".toList, some 1, some "Daft Punk".toList)] else [],
    trackAttributes := fun id =>
      if id = 10 then [(some "year".toList, some "2000".toList)] else [],
    resultFromHint := fun q =>
      if q.resultHint = "orphan".toList then
        some { Result.get 1 "servent://eve\t/x.mp3".toList with collection := some 7 }
      else if q.resultHint = "bob".toList then
        some { Result.get 1 "servent://bob\tb.mp3".toList with collection := some 2 }
      else none,
    artistId := fun _ _ => 1,
    sortname := sampleSortname }

/-- The local source and one peer, "bob", with source id 2. -/
def sampleSources : SourceList :=
  { getLocal := { userName := "me".toList, isOnline := true, collection := some 0 },
    get := fun id =>
      if id = 2 then some { userName := "bob".toList, isOnline := true, collection := some 2 }
      else none }

/-- The sample environment; collection 7 has no source. -/
def sampleEnv : Env :=
  { lib := sampleLib,
    sourceList := sampleSources,
    collectionSource := fun c =>
      if c = 0 then some sampleSources.getLocal else if c = 2 then sampleSources.get 2 else none,
    defaultScore := 1 }

/-- A query by fields. -/
def fieldQuery (artist track : String) : Query :=
  { id := "q1".toList, artist := artist.toList, track := track.toList, album := [],
    fullTextQuery := [], resultHint := [], isFullTextQuery := false }

/-- A full-text query. -/
def textQuery (text : String) : Query :=
  { id := "q2".toList, artist := [], track := [], album := [],
    fullTextQuery := text.toList, resultHint := [], isFullTextQuery := true }

/-- A source registry in which every non-zero source id resolves to one online
peer with the given user name. -/
def peerNamed (name : String) : SourceList :=
  { getLocal := { userName := "me".toList, isOnline := true, collection := some 0 },
    get := fun _ => some { userName := name.toList, isOnline := true, collection := some 2 } }

/-- A query by fields that carries a result hint. -/
def hintQuery (hint : String) : Query :=
  { fieldQuery "daft punk" "one more time" with resultHint := hint.toList }

/-- The sample storage layer with an `artistId` lookup: "Daft Punk" has the id
1, the empty name can be neither found nor created (id 0), any other name is
unknown (id 0) unless `autoCreate` asks for a new row, which gets the id 7. -/
def lookupLib : DatabaseImpl :=
  { sampleLib with
    artistId := fun name autoCreate =>
      if name = "Daft Punk".toList then 1
      else if name = [] then 0
      else if autoCreate then 7 else 0 }

/-- The sample storage layer with a second artist, "Daft" (id 2): the
full-text search for "daft" has the two artist candidates 1 and 2. -/
def twoArtistsLib : DatabaseImpl :=
  { sampleLib with
    searchTable := fun table text limit =>
      if table = "artist".toList ∧ text = "daft".toList then [(1, 1/2), (2, 1/4)]
      else sampleLib.searchTable table text limit,
    artistName := fun id =>
      if id = 1 then [some "Daft Punk".toList]
      else if id = 2 then [some "Daft".toList] else [] }

theorem QHash.contains_insert {V : Type} (h : List (Nat × V)) (k k2 : Nat) (v : V) :
    QHash.contains (QHash.insert h k v) k2 = (k == k2 || QHash.contains h k2) := by
  unfold QHash.contains QHash.insert
  by_cases hk : k = k2
  · simp [hk]
  · simp only [List.any_cons, List.any_filter]
    have h1 : (k == k2) = false := by simpa using hk
    rw [h1, Bool.false_or, Bool.false_or]
    congr 1
    funext e
    by_cases he : e.1 = k2
    · have : e.1 ≠ k := fun hc => hk (hc ▸ he)
      simp [he, this]
      intro hc; exact hk hc.symm
    · simp [he]

theorem QHash.find_filter_ne {V : Type} (h : List (Nat × V)) (k k2 : Nat) (hk : k ≠ k2) :
    (h.filter (fun e => e.1 != k)).find? (fun e => e.1 == k2) = h.find? (fun e => e.1 == k2) := by
  induction h with
  | nil => rfl
  | cons e t ih =>
    by_cases he : e.1 = k
    · have h2 : ¬ e.1 = k2 := fun hc => hk (he ▸ hc)
      have h3 : (e.1 != k) = false := by simp [he]
      have h4 : (e.1 == k2) = false := by simpa using h2
      rw [List.filter_cons, h3, List.find?_cons, h4]
      simpa using ih
    · have h3 : (e.1 != k) = true := by simpa using he
      rw [List.filter_cons, h3]
      simp only [if_true, List.find?_cons]
      rw [ih]

theorem QHash.value_insert {V : Type} (h : List (Nat × V)) (k k2 : Nat) (v d : V) :
    QHash.value (QHash.insert h k v) k2 d = if k = k2 then v else QHash.value h k2 d := by
  unfold QHash.value QHash.insert
  by_cases hk : k = k2
  · simp [hk, List.find?_cons]
  · have : (k == k2) = false := by simpa using hk
    simp only [List.find?_cons, this, if_neg hk]
    rw [QHash.find_filter_ne h k k2 hk]

theorem QHash.filter_absent {V : Type} (h : List (Nat × V)) (k : Nat)
    (hc : QHash.contains h k = false) : h.filter (fun e => e.1 != k) = h := by
  unfold QHash.contains at hc
  rw [List.filter_eq_self]
  intro e he
  have := (List.any_eq_false.mp hc) e he
  simpa using this

/-! ## The identity registry -/

theorem Artist.get_keeps (sortname : QString → QString) (st : State) (id k : Nat) (name : QString)
    (hc : QHash.contains st.s_artists k = true) :
    QHash.contains (Artist.get sortname st id name).2.s_artists k = true ∧
    QHash.value (Artist.get sortname st id name).2.s_artists k none
      = QHash.value st.s_artists k none := by
  unfold Artist.get
  by_cases h1 : QHash.contains st.s_artists id = true
  · simp [h1, hc]
  · by_cases h2 : id > 0
    · have hne : id ≠ k := by
        intro he; rw [he] at h1; exact h1 hc
      simp [h1, h2, QHash.contains_insert, QHash.value_insert, hc, hne]
    · simp [h1, h2, hc]

theorem Artist.getMany_keeps (sortname : QString → QString) (calls : List (Nat × QString))
    (st : State) (k : Nat) (hc : QHash.contains st.s_artists k = true) :
    QHash.contains (Artist.getMany sortname st calls).s_artists k = true ∧
    QHash.value (Artist.getMany sortname st calls).s_artists k none
      = QHash.value st.s_artists k none := by
  induction calls generalizing st with
  | nil => exact ⟨hc, rfl⟩
  | cons c cs ih =>
    obtain ⟨id, name⟩ := c
    have h1 := Artist.get_keeps sortname st id k name hc
    have h2 := ih (Artist.get sortname st id name).2 h1.1
    exact ⟨h2.1, h2.2.trans h1.2⟩

theorem Artist.get_cached (sortname : QString → QString) (st : State) (id : Nat) (name : QString)
    (hid : id ≠ 0) :
    QHash.contains (Artist.get sortname st id name).2.s_artists id = true ∧
    QHash.value (Artist.get sortname st id name).2.s_artists id none
      = (Artist.get sortname st id name).1 := by
  unfold Artist.get
  have hpos : id > 0 := Nat.pos_of_ne_zero hid
  by_cases h1 : QHash.contains st.s_artists id = true
  · simp [h1]
  · simp [h1, hpos, QHash.contains_insert, QHash.value_insert]

theorem Artist.get_of_contains (sortname : QString → QString) (st : State) (id : Nat)
    (name : QString) (hc : QHash.contains st.s_artists id = true) :
    Artist.get sortname st id name = (QHash.value st.s_artists id none, st) := by
  unfold Artist.get
  simp [hc]

/-- C2: for a non-zero identifier, `Artist::get( id, n1 )` and a later
`Artist::get( id, n2 )`, whatever the cache held before and whatever
`Artist::get` calls are made in between, return the same pointer, hence the
same object: the one created or found at the first call. -/
theorem artist_get_singleton (sortname : QString → QString) (st : State) (id : Nat)
    (n1 n2 : QString) (calls : List (Nat × QString)) (hid : id ≠ 0) :
    (Artist.get sortname
        (Artist.getMany sortname (Artist.get sortname st id n1).2 calls) id n2).1
      = (Artist.get sortname st id n1).1 := by
  have h1 := Artist.get_cached sortname st id n1 hid
  have h2 := Artist.getMany_keeps sortname calls (Artist.get sortname st id n1).2 id h1.1
  rw [Artist.get_of_contains sortname _ id n2 h2.1]
  exact h2.2.trans h1.2

/-- Witness of `artist_get_singleton`: identifier 3, asked for as "Abba" and,
after calls for the identifiers 5, 3 and 0, as "Beck". -/
theorem artist_get_singleton_witness :
    (3 : Nat) ≠ 0 ∧
    (Artist.get sampleSortname
        (Artist.getMany sampleSortname (Artist.get sampleSortname State.initial 3 "Abba".toList).2
          [(5, "Can".toList), (3, "Cher".toList), (0, "Dio".toList)]) 3 "Beck".toList).1
      = (Artist.get sampleSortname State.initial 3 "Abba".toList).1 :=
  ⟨by decide, artist_get_singleton sampleSortname State.initial 3 "Abba".toList "Beck".toList
    [(5, "Can".toList), (3, "Cher".toList), (0, "Dio".toList)] (by decide)⟩

/-- C10: `Artist::get( id, name )` on an explicit cache. A cached identifier
gives the cached entity and leaves the state as it is; an absent identifier
above 0 gives a newly allocated entity with that id and name, and the cache
becomes the old cache plus the one entry for it; identifier 0 (never a key of
the cache) gives a newly allocated entity and leaves the cache as it is, so
that a second call with identifier 0 returns another object. No call removes
or replaces an entry, and none stores the key 0. -/
theorem artist_get_or_create (sortname : QString → QString) (st : State) (id : Nat)
    (name : QString) :
    (QHash.contains st.s_artists id = true →
      Artist.get sortname st id name = (QHash.value st.s_artists id none, st)) ∧
    (QHash.contains st.s_artists id = false → 0 < id →
      Artist.get sortname st id name =
        (some ⟨st.heapNext, id, name, sortname name⟩,
         { st with
            heapNext := st.heapNext + 1
            s_artists := (id, some ⟨st.heapNext, id, name, sortname name⟩) :: st.s_artists })) ∧
    (QHash.contains st.s_artists 0 = false → id = 0 →
      Artist.get sortname st id name =
        (some ⟨st.heapNext, 0, name, sortname name⟩, { st with heapNext := st.heapNext + 1 }) ∧
      ∀ name2 : QString,
        (Artist.get sortname (Artist.get sortname st id name).2 0 name2).1
          ≠ (Artist.get sortname st id name).1) ∧
    (∀ k : Nat, QHash.contains st.s_artists k = true →
      QHash.contains (Artist.get sortname st id name).2.s_artists k = true ∧
      QHash.value (Artist.get sortname st id name).2.s_artists k none
        = QHash.value st.s_artists k none) ∧
    (QHash.contains st.s_artists 0 = false →
      QHash.contains (Artist.get sortname st id name).2.s_artists 0 = false) ∧
    ((∀ e ∈ st.s_artists, ∀ a : Artist, e.2 = some a → a.addr < st.heapNext) →
      QHash.contains st.s_artists id = false →
      ∀ e ∈ st.s_artists, e.2 ≠ (Artist.get sortname st id name).1) := by
  refine ⟨?_, ?_, ?_, ?_, ?_, ?_⟩
  · intro hc
    exact Artist.get_of_contains sortname st id name hc
  · intro hc hpos
    unfold Artist.get
    simp only [hc, Bool.false_eq_true, if_false, gt_iff_lt, hpos, if_true]
    unfold QHash.insert
    rw [QHash.filter_absent st.s_artists id hc]
  · intro h0 hid
    subst hid
    have e1 : Artist.get sortname st 0 name =
        (some ⟨st.heapNext, 0, name, sortname name⟩, { st with heapNext := st.heapNext + 1 }) := by
      unfold Artist.get
      simp [h0]
    refine ⟨e1, ?_⟩
    intro name2
    rw [e1]
    unfold Artist.get
    simp [h0]
  · intro k hk
    exact Artist.get_keeps sortname st id k name hk
  · intro h0
    unfold Artist.get
    by_cases h1 : QHash.contains st.s_artists id = true
    · simp [h1, h0]
    · by_cases h2 : id > 0
      · have hne : (id == 0) = false := by simpa using Nat.pos_iff_ne_zero.mp h2
        simp [h1, h2, QHash.contains_insert, h0, hne]
      · simp [h1, h2, h0]
  · intro hwf hc e he
    have e1 : (Artist.get sortname st id name).1 =
        some ⟨st.heapNext, id, name, sortname name⟩ := by
      unfold Artist.get
      by_cases h2 : id > 0
      · simp [hc, h2]
      · simp [hc, h2]
    rw [e1]
    intro heq
    have := hwf e he _ heq
    simp at this

/-- Witness of `artist_get_or_create`: in a cache holding identifier 3 only,
identifier 3 is served from the cache, identifier 4 is added to it, and
identifier 0 is handed out twice as two objects. -/
theorem artist_get_or_create_witness :
    Artist.get sampleSortname (Artist.get sampleSortname State.initial 3 "Abba".toList).2 3
        "Beck".toList
      = (some ⟨0, 3, "Abba".toList, "abba".toList⟩,
         (Artist.get sampleSortname State.initial 3 "Abba".toList).2) ∧
    (Artist.get sampleSortname (Artist.get sampleSortname State.initial 3 "Abba".toList).2 4
        "Beck".toList).2.s_artists
      = [(4, some ⟨1, 4, "Beck".toList, "beck".toList⟩),
         (3, some ⟨0, 3, "Abba".toList, "abba".toList⟩)] ∧
    (Artist.get sampleSortname (Artist.get sampleSortname State.initial 3 "Abba".toList).2 0
        "Can".toList).2.s_artists
      = [(3, some ⟨0, 3, "Abba".toList, "abba".toList⟩)] ∧
    (Artist.get sampleSortname
        (Artist.get sampleSortname State.initial 0 "Can".toList).2 0 "Can".toList).1
      ≠ (Artist.get sampleSortname State.initial 0 "Can".toList).1 := by
  have h3 := artist_get_or_create sampleSortname
    (Artist.get sampleSortname State.initial 3 "Abba".toList).2 3 "Beck".toList
  have h4 := artist_get_or_create sampleSortname
    (Artist.get sampleSortname State.initial 3 "Abba".toList).2 4 "Beck".toList
  have h0 := artist_get_or_create sampleSortname
    (Artist.get sampleSortname State.initial 3 "Abba".toList).2 0 "Can".toList
  have hi := artist_get_or_create sampleSortname State.initial 0 "Can".toList
  refine ⟨?_, ?_, ?_, ?_⟩
  · rw [h3.1 (by decide)]
    decide
  · rw [h4.2.1 (by decide) (by decide)]
    decide
  · rw [(h0.2.2.1 (by decide) rfl).1]
    decide
  · exact (hi.2.2.1 (by decide) rfl).2 "Can".toList

/-! ## `resolve` without candidates -/

/-- C1: in `resolve`, when `searchTable` returns no artist candidate or no
track candidate, the run consists of the three `searchTable` calls and the
signal `results( id, [] )`: the emitted list is empty, and neither the file
join statement nor a `track_attributes` statement is executed; the state is
left as it was. -/
theorem resolve_no_candidates (env : Env) (q : Query) (st : State)
    (h : env.lib.searchTable "artist".toList q.artist none = [] ∨
         env.lib.searchTable "track".toList q.track none = []) :
    resolve env q st = (st, resolveSearches q ++ [Event.results q.id []]) ∧
    (resolve env q st).2.filter Event.isResults = [Event.results q.id []] ∧
    (∀ e ∈ (resolve env q st).2, e.isFilesQuery = false ∧ e.isAttrQuery = false) := by
  have e1 : resolve env q st = (st, resolveSearches q ++ [Event.results q.id []]) := by
    unfold resolve
    rcases h with h | h <;> rw [h] <;> simp
  rw [e1]
  refine ⟨rfl, ?_, ?_⟩
  · simp [resolveSearches, Event.isResults]
  · intro e he
    simp [resolveSearches] at he
    rcases he with he | he | he | he <;> subst he <;> exact ⟨rfl, rfl⟩

/-- Witness of `resolve_no_candidates`: the artist "nobody" has no candidate in
the sample catalog. -/
theorem resolve_no_candidates_witness :
    sampleEnv.lib.searchTable "artist".toList (fieldQuery "nobody" "one more time").artist none = [] ∧
    resolve sampleEnv (fieldQuery "nobody" "one more time") State.initial
      = (State.initial,
         [Event.searchTable "artist".toList "nobody".toList none,
          Event.searchTable "track".toList "one more time".toList none,
          Event.searchTable "album".toList [] none,
          Event.results "q1".toList []]) :=
  ⟨by decide,
   (resolve_no_candidates sampleEnv (fieldQuery "nobody" "one more time") State.initial
      (Or.inl (by decide))).1⟩


/-! ## The row loops -/

theorem populate_trackId (env : Env) (st : State) (url : QString) (row : Row) :
    (populate env st url row).1.trackId = toUInt row.fj_track := rfl

theorem populate_url (env : Env) (st : State) (url : QString) (row : Row) :
    (populate env st url row).1.url = url := rfl

theorem attachAttributes_score (lib : DatabaseImpl) (s : Source) (r : Result) :
    (attachAttributes lib s r).score = r.score := rfl

theorem attachAttributes_trackId (lib : DatabaseImpl) (s : Source) (r : Result) :
    (attachAttributes lib s r).trackId = r.trackId := rfl

theorem attachAttributes_url (lib : DatabaseImpl) (s : Source) (r : Result) :
    (attachAttributes lib s r).url = r.url := rfl

theorem backfillScore_eq (trackPairs : List scorepair_t) (result : Result) :
    backfillScore trackPairs result =
      { result with
        score := ((trackPairs.find? (fun p => decide (p.1 = castInt result.trackId))).map
          Prod.snd).getD result.score } := by
  induction trackPairs with
  | nil => rfl
  | cons p rest ih =>
    unfold backfillScore
    by_cases h : p.1 = castInt result.trackId
    · simp [h, List.find?_cons]
    · simp [h, List.find?_cons, ih]

theorem backfillScore_trackId (trackPairs : List scorepair_t) (result : Result) :
    (backfillScore trackPairs result).trackId = result.trackId := by
  rw [backfillScore_eq]

theorem backfillScore_url (trackPairs : List scorepair_t) (result : Result) :
    (backfillScore trackPairs result).url = result.url := by
  rw [backfillScore_eq]

/-- Every Result in the list built by the row loop of `fullTextResolve` comes
from one of the rows whose Source resolves. -/
theorem fullTextRows_mem (env : Env) (trackPairs : List scorepair_t) (rows : List Row)
    (st : State) (r : Result) (hr : r ∈ (fullTextRows env trackPairs st rows).2.1) :
    ∃ row ∈ rows, ∃ (st2 : State) (s : Source) (url : QString),
      rowSource env.sourceList row = some (s, url) ∧
      r = attachAttributes env.lib s (backfillScore trackPairs (populate env st2 url row).1) := by
  induction rows generalizing st with
  | nil => simp [fullTextRows] at hr
  | cons row rows ih =>
    unfold fullTextRows at hr
    cases hs : rowSource env.sourceList row with
    | none =>
      rw [hs] at hr
      obtain ⟨row2, hmem, h⟩ := ih st hr
      exact ⟨row2, List.mem_cons_of_mem _ hmem, h⟩
    | some su =>
      obtain ⟨s, url⟩ := su
      rw [hs] at hr
      simp only [List.mem_cons] at hr
      rcases hr with hr | hr
      · exact ⟨row, List.mem_cons_self _ _, st, s, url, hs, hr⟩
      · obtain ⟨row2, hmem, h⟩ := ih _ hr
        exact ⟨row2, List.mem_cons_of_mem _ hmem, h⟩

theorem castInt_small (u : Nat) (h : u < 2147483648) : castInt u = (u : Int) := by
  unfold castInt
  have h1 : u % 4294967296 = u := Nat.mod_eq_of_lt (by omega)
  rw [h1, if_pos h]

/-- C3: the score back-fill of `fullTextResolve`. The loop over the track
candidates changes nothing but the score, which becomes the score of the first
candidate, in list order, whose identifier equals the row's trackId (as the
code compares them: with `(int)trackId`, which is the trackId itself below
2^31), and stays as it was when no candidate has that identifier. Hence every
Result the row loop emits carries the score of the first candidate with its
trackId, or the default score when there is none. -/
theorem fulltext_score_backfill (env : Env) (trackPairs : List scorepair_t) (st : State)
    (rows : List Row) :
    (∀ result : Result,
      backfillScore trackPairs result =
        { result with
          score := ((trackPairs.find? (fun p => decide (p.1 = castInt result.trackId))).map
            Prod.snd).getD result.score }) ∧
    (∀ r ∈ (fullTextRows env trackPairs st rows).2.1,
      r.score = ((trackPairs.find? (fun p => decide (p.1 = castInt r.trackId))).map
        Prod.snd).getD env.defaultScore) ∧
    (∀ u : Nat, u < 2147483648 → castInt u = (u : Int)) := by
  refine ⟨backfillScore_eq trackPairs, ?_, castInt_small⟩
  intro r hr
  obtain ⟨row, _, st2, s, url, _, rfl⟩ := fullTextRows_mem env trackPairs rows st r hr
  rw [attachAttributes_score, attachAttributes_trackId, backfillScore_trackId, backfillScore_eq]
  rfl

/-- Witness of `fulltext_score_backfill`: track 10 is a candidate twice, with
scores 1/2 and 3/4; the rows of track 10 get 1/2, the row of track 12, which
is no candidate, keeps the default score 1. -/
theorem fulltext_score_backfill_witness :
    (backfillScore [(10, 1/2), (10, 3/4), (11, 1/4)]
        { Result.get 1 "/m/a.mp3".toList with trackId := 10 }).score = 1/2 ∧
    (backfillScore [(10, 1/2), (10, 3/4), (11, 1/4)]
        { Result.get 1 "/m/d.mp3".toList with trackId := 12 }).score = 1 ∧
    (fullTextRows sampleEnv [(10, 1/2), (10, 3/4), (11, 1/4)] State.initial
        sampleLib.fileJoin).2.1.map Result.score = [1/2, 1/2, 1] := by
  refine ⟨?_, ?_, ?_⟩
  · rw [(fulltext_score_backfill sampleEnv [(10, 1/2), (10, 3/4), (11, 1/4)] State.initial []).1]
    rfl
  · rw [(fulltext_score_backfill sampleEnv [(10, 1/2), (10, 3/4), (11, 1/4)] State.initial []).1]
    rfl
  · rfl

/-! ## The locator -/

theorem scanArg_plain_append (l rest : List Char) (h : '%' ∉ l) :
    scanArg .plain (l ++ rest) = l.map Piece.text ++ scanArg .plain rest := by
  induction l with
  | nil => rfl
  | cons c cs ih =>
    have hc : c ≠ '%' := fun e => h (e ▸ List.mem_cons_self _ _)
    have hcs : '%' ∉ cs := fun e => h (List.mem_cons_of_mem _ e)
    simp only [List.cons_append, scanArg, if_neg hc, List.map_cons]
    exact congrArg (List.cons (Piece.text c)) (ih hcs)

theorem minMarker_text_append (l : List Char) (ps : List Piece) :
    minMarker (l.map Piece.text ++ ps) = minMarker ps := by
  induction l with
  | nil => rfl
  | cons c cs ih => simpa [minMarker] using ih

theorem subst_text_append (m : Nat) (a : QString) (l : List Char) (ps : List Piece) :
    (l.map Piece.text ++ ps).flatMap (Piece.subst m a) = l ++ ps.flatMap (Piece.subst m a) := by
  induction l with
  | nil => rfl
  | cons c cs ih => simp [List.flatMap_cons, Piece.subst, ih]

/-- The first `arg` of the locator: `%1` of the pattern becomes the name. -/
theorem arg_first (name : QString) :
    QString.arg "servent://%1\t%2".toList name = "servent://".toList ++ name ++ "\t%2".toList := by
  rfl

/-- The second `arg` of the locator, for a name without `%`: `%2` becomes the
path. -/
theorem arg_second (name url : QString) (h : '%' ∉ name) :
    QString.arg ("servent://".toList ++ name ++ "\t%2".toList) url
      = "servent://".toList ++ name ++ '\t' :: url := by
  have hp : '%' ∉ "servent://".toList ++ name ++ ['\t'] := by
    simp only [List.mem_append, not_or]
    exact ⟨⟨by decide, h⟩, by decide⟩
  have e1 : "servent://".toList ++ name ++ "\t%2".toList
      = ("servent://".toList ++ name ++ ['\t']) ++ ['%', '2'] := by
    simp
  have e2 : scanArg .plain ['%', '2'] = [Piece.marker 2 ['%', '2']] := by decide
  unfold QString.arg
  rw [e1, scanArg_plain_append _ _ hp, e2, minMarker_text_append]
  simp only [minMarker, subst_text_append]
  simp [Piece.subst]

theorem takeWhile_tab (name path : List Char) (h : '\t' ∉ name) :
    (name ++ '\t' :: path).takeWhile (fun c => c != '\t') = name ∧
    (name ++ '\t' :: path).dropWhile (fun c => c != '\t') = '\t' :: path := by
  induction name with
  | nil => simp
  | cons c cs ih =>
    have hc : c ≠ '\t' := fun e => h (e ▸ List.mem_cons_self _ _)
    have hcs : '\t' ∉ cs := fun e => h (List.mem_cons_of_mem _ e)
    have := ih hcs
    simp [List.takeWhile_cons, List.dropWhile_cons, hc, this.1, this.2]

theorem resolveRows_single_url (env : Env) (st : State) (row : Row) (s : Source) (url : QString)
    (h : rowSource env.sourceList row = some (s, url)) :
    (resolveRows env st [row]).2.1.map Result.url = [url] := by
  simp only [resolveRows, h, List.map_cons, List.map_nil]
  rfl

theorem fullTextRows_single_url (env : Env) (trackPairs : List scorepair_t) (st : State)
    (row : Row) (s : Source) (url : QString)
    (h : rowSource env.sourceList row = some (s, url)) :
    (fullTextRows env trackPairs st [row]).2.1.map Result.url = [url] := by
  simp only [fullTextRows, h, List.map_cons, List.map_nil]
  rw [attachAttributes_url, backfillScore_url, populate_url]

theorem rowSource_local (sl : SourceList) (row : Row) (h : toUInt row.source = 0) :
    rowSource sl row = some (sl.getLocal, toQString row.url) := by
  unfold rowSource
  simp [h]

theorem rowSource_remote (sl : SourceList) (row : Row) (s : Source)
    (h : toUInt row.source ≠ 0) (hs : sl.get (toUInt row.source) = some s)
    (hn : '%' ∉ s.userName) :
    rowSource sl row
      = some (s, "servent://".toList ++ s.userName ++ '\t' :: toQString row.url) := by
  unfold rowSource
  have h0 : (toUInt row.source == 0) = false := by simpa using h
  simp only [h0, hs, Bool.false_eq_true, if_false]
  rw [arg_first, arg_second _ _ hn]

/-- C4, as amended: the locator of the Result of a joined row, in `resolve`
and in `fullTextResolve` alike. With source id 0 it is the catalog path
(column `url`) unchanged. With a non-zero source id that resolves to a Source
whose user name contains no `%`, it is exactly "servent://", the name, one TAB
and the catalog path. Some function reads name and path back from every such
locator whose name contains no TAB. -/
theorem locator_of_row (env : Env) (st : State) (trackPairs : List scorepair_t) (row : Row) :
    (toUInt row.source = 0 →
      (resolveRows env st [row]).2.1.map Result.url = [toQString row.url] ∧
      (fullTextRows env trackPairs st [row]).2.1.map Result.url = [toQString row.url]) ∧
    (∀ s : Source, toUInt row.source ≠ 0 → env.sourceList.get (toUInt row.source) = some s →
      '%' ∉ s.userName →
      (resolveRows env st [row]).2.1.map Result.url
        = ["servent://".toList ++ s.userName ++ '\t' :: toQString row.url] ∧
      (fullTextRows env trackPairs st [row]).2.1.map Result.url
        = ["servent://".toList ++ s.userName ++ '\t' :: toQString row.url]) ∧
    (∃ parse : QString → Option (QString × QString), ∀ name path : QString, '\t' ∉ name →
      parse ("servent://".toList ++ name ++ '\t' :: path) = some (name, path)) := by
  refine ⟨?_, ?_, ?_⟩
  · intro h
    have hs := rowSource_local env.sourceList row h
    exact ⟨resolveRows_single_url env st row _ _ hs,
      fullTextRows_single_url env trackPairs st row _ _ hs⟩
  · intro s h hg hn
    have hs := rowSource_remote env.sourceList row s h hg hn
    exact ⟨resolveRows_single_url env st row _ _ hs,
      fullTextRows_single_url env trackPairs st row _ _ hs⟩
  · refine ⟨fun l => some (((l.drop 10).takeWhile (fun c => c != '\t')),
      (((l.drop 10).dropWhile (fun c => c != '\t')).drop 1)), ?_⟩
    intro name path hn
    have e : ("servent://".toList ++ name ++ '\t' :: path).drop 10 = name ++ '\t' :: path := by
      simp
    show some (((("servent://".toList ++ name ++ '\t' :: path).drop 10).takeWhile
        (fun c => c != '\t')),
      (((("servent://".toList ++ name ++ '\t' :: path).drop 10).dropWhile
        (fun c => c != '\t')).drop 1)) = some (name, path)
    rw [e, (takeWhile_tab name path hn).1, (takeWhile_tab name path hn).2]
    rfl

/-- Witness of `locator_of_row`: in the sample catalog the file of source 2,
whose user name is "bob", gets the locator "servent://bob", TAB, "b.mp3", and
the local file keeps its path. -/
theorem locator_of_row_witness :
    (resolveRows sampleEnv State.initial [sampleRow "/m/a.mp3" 1 10 none]).2.1.map Result.url
      = ["/m/a.mp3".toList] ∧
    (fullTextRows sampleEnv [(10, 1/2)] State.initial
        [sampleRow "b.mp3" 1 10 (some 2)]).2.1.map Result.url
      = ["servent://bob\tb.mp3".toList] :=
  ⟨((locator_of_row sampleEnv State.initial [] (sampleRow "/m/a.mp3" 1 10 none)).1
      (by decide)).1,
   ((locator_of_row sampleEnv State.initial [(10, 1/2)] (sampleRow "b.mp3" 1 10 (some 2))).2.1
      { userName := "bob".toList, isOnline := true, collection := some 2 }
      (by decide) (by decide) (by decide)).2⟩

/-- Counterexample to C4 as stated ("for every name and path"). For the user
name "%1" and the path "/a" the locator is "servent:///a", TAB, "%2", not
"servent://%1", TAB, "/a": the second `arg` replaces the marker inside the
name. And the user name "a", TAB, "b" with path "c" gets the same locator as
the user name "a" with path "b", TAB, "c", so that name and path cannot be
read back from it. -/
theorem locator_counterexample :
    (resolveRows { sampleEnv with sourceList := peerNamed "%1" } State.initial
        [sampleRow "/a" 1 10 (some 2)]).2.1.map Result.url = ["servent:///a\t%2".toList] ∧
    "servent:///a\t%2".toList ≠ "servent://".toList ++ "%1".toList ++ '\t' :: "/a".toList ∧
    (resolveRows { sampleEnv with sourceList := peerNamed "a\tb" } State.initial
        [sampleRow "c" 1 10 (some 2)]).2.1.map Result.url
      = (resolveRows { sampleEnv with sourceList := peerNamed "a" } State.initial
        [sampleRow "b\tc" 1 10 (some 2)]).2.1.map Result.url ∧
    ("a\tb".toList, "c".toList) ≠ ("a".toList, "b\tc".toList) := by
  refine ⟨by decide, by decide, by decide, by decide⟩

/-! ## The hint check -/

theorem normalResolve_hint (env : Env) (q : Query) (st : State) :
    normalResolve env { q with resultHint := [] } st = normalResolve env q st := rfl

/-- What `exec` does with a hint whenever it does not dereference a null
source: the single hint result is emitted, without search or join, exactly
when the hint lookup gives a result with a collection whose source is online;
without result, without collection or with an offline source the run is the
normal resolution of the query. -/
theorem exec_hint_cases (env : Env) (q : Query) (st : State) (hq : q.resultHint ≠ []) :
    (∀ (r : Result) (c : Nat) (s : Source), env.lib.resultFromHint q = some r →
      r.collection = some c → env.collectionSource c = some s → s.isOnline = true →
      exec env q st = some (st, [Event.results q.id [r]])) ∧
    (env.lib.resultFromHint q = none →
      exec env q st = exec env { q with resultHint := [] } st) ∧
    (∀ r : Result, env.lib.resultFromHint q = some r → r.collection = none →
      exec env q st = exec env { q with resultHint := [] } st) ∧
    (∀ (r : Result) (c : Nat) (s : Source), env.lib.resultFromHint q = some r →
      r.collection = some c → env.collectionSource c = some s → s.isOnline = false →
      exec env q st = exec env { q with resultHint := [] } st) ∧
    (∀ (r : Result) (c : Nat), env.lib.resultFromHint q = some r →
      r.collection = some c → env.collectionSource c = none → exec env q st = none) ∧
    exec env { q with resultHint := [] } st = some (normalResolve env q st) := by
  have hne : (!q.resultHint.isEmpty) = true := by
    cases h : q.resultHint with
    | nil => exact absurd h hq
    | cons a l => rfl
  have e0 : exec env { q with resultHint := [] } st = some (normalResolve env q st) := by
    unfold exec
    simp only [List.isEmpty_nil, Bool.not_true, Bool.false_eq_true, if_false]
    rw [normalResolve_hint]
  refine ⟨?_, ?_, ?_, ?_, ?_, e0⟩
  · intro r c s h1 h2 h3 h4
    unfold exec
    simp only [hne, if_true, h1, h2, h3, h4]
  · intro h1
    rw [e0]
    unfold exec
    simp only [hne, if_true, h1]
  · intro r h1 h2
    rw [e0]
    unfold exec
    simp only [hne, if_true, h1, h2]
  · intro r c s h1 h2 h3 h4
    rw [e0]
    unfold exec
    simp only [hne, if_true, h1, h2, h3, h4, Bool.false_eq_true, if_false]
  · intro r c h1 h2 h3
    unfold exec
    simp only [hne, if_true, h1, h2, h3]

/-- C5, at the failing input: the hint check is to fall through to normal
resolution whenever the hint lookup yields no result with resolvable Collection
and Source and an online Source. Here the lookup yields a result whose
collection is non-null but has a null source: `exec` evaluates
`source()->isOnline()` on the null source and ends there (`none`), emitting
nothing, whereas the same query without hint resolves normally and emits its
`results` signal. -/
theorem exec_hint_null_source :
    (hintQuery "orphan").resultHint ≠ [] ∧
    (sampleEnv.lib.resultFromHint (hintQuery "orphan")).map Result.collection = some (some 7) ∧
    sampleEnv.collectionSource 7 = none ∧
    exec sampleEnv (hintQuery "orphan") State.initial = none ∧
    (exec sampleEnv { hintQuery "orphan" with resultHint := [] } State.initial).map
        (fun out => (out.2.filter Event.isResults).length) = some 1 := by
  refine ⟨by decide, by decide, by decide, by decide, by decide⟩

/-! ## The events of the loops -/

/-- The artist loop executes `artist` statements and emits `artists` signals,
nothing else. -/
theorem artistSuggestions_events (env : Env) (qid : QString) (pairs : List scorepair_t)
    (st : State) :
    ∀ e ∈ (artistSuggestions env qid st pairs).2,
      (∃ id, e = Event.artistQuery id) ∨ (∃ l, e = Event.artists qid l) := by
  induction pairs generalizing st with
  | nil => intro e he; simp [artistSuggestions] at he
  | cons p ps ih =>
    intro e he
    unfold artistSuggestions at he
    simp only [List.mem_cons] at he
    rcases he with he | he | he
    · exact Or.inl ⟨_, he⟩
    · exact Or.inr ⟨_, he⟩
    · exact ih _ e he

/-- The album loop executes `album` statements and emits `albums` signals,
nothing else. -/
theorem albumSuggestions_events (env : Env) (qid : QString) (pairs : List scorepair_t)
    (st : State) :
    ∀ e ∈ (albumSuggestions env qid st pairs).2,
      (∃ id, e = Event.albumQuery id) ∨ (∃ l, e = Event.albums qid l) := by
  induction pairs generalizing st with
  | nil => intro e he; simp [albumSuggestions] at he
  | cons p ps ih =>
    intro e he
    unfold albumSuggestions at he
    simp only [List.mem_cons] at he
    rcases he with he | he | he
    · exact Or.inl ⟨_, he⟩
    · exact Or.inr ⟨_, he⟩
    · exact ih _ e he

/-- The row loop of `fullTextResolve` executes `track_attributes` statements
only. -/
theorem fullTextRows_events (env : Env) (trackPairs : List scorepair_t) (rows : List Row)
    (st : State) :
    ∀ e ∈ (fullTextRows env trackPairs st rows).2.2, ∃ t, e = Event.attrQuery t := by
  induction rows generalizing st with
  | nil => intro e he; simp [fullTextRows] at he
  | cons row rows ih =>
    intro e he
    unfold fullTextRows at he
    cases hs : rowSource env.sourceList row with
    | none =>
      rw [hs] at he
      exact ih st e he
    | some su =>
      obtain ⟨s, url⟩ := su
      rw [hs] at he
      simp only [List.mem_cons] at he
      rcases he with he | he
      · exact ⟨_, he⟩
      · exact ih _ e he

/-- The row loop of `resolve` executes `track_attributes` statements only. -/
theorem resolveRows_events (env : Env) (rows : List Row) (st : State) :
    ∀ e ∈ (resolveRows env st rows).2.2, ∃ t, e = Event.attrQuery t := by
  induction rows generalizing st with
  | nil => intro e he; simp [resolveRows] at he
  | cons row rows ih =>
    intro e he
    unfold resolveRows at he
    cases hs : rowSource env.sourceList row with
    | none =>
      rw [hs] at he
      exact ih st e he
    | some su =>
      obtain ⟨s, url⟩ := su
      rw [hs] at he
      simp only [List.mem_cons] at he
      rcases he with he | he
      · exact ⟨_, he⟩
      · exact ih _ e he

theorem emittedResults_append (a b : List Event) :
    emittedResults (a ++ b) = emittedResults a ++ emittedResults b := by
  simp [emittedResults, List.flatMap_append]

theorem emittedResults_none (a : List Event) (h : ∀ e ∈ a, e.isResults = false) :
    emittedResults a = [] := by
  induction a with
  | nil => rfl
  | cons e t ih =>
    have h1 := h e (List.mem_cons_self _ _)
    have h2 := ih (fun x hx => h x (List.mem_cons_of_mem _ hx))
    cases e <;> simp_all [emittedResults, List.flatMap_cons, Event.resultsOf, Event.isResults]

theorem filter_isResults_none (a : List Event) (h : ∀ e ∈ a, e.isResults = false) :
    a.filter Event.isResults = [] := by
  rw [List.filter_eq_nil_iff]
  intro e he
  simp [h e he]

/-- The part of a `fullTextResolve` run before the file join: the three
searches and the two suggestion loops. It holds no `results` signal, no file
join and no `track_attributes` statement. -/
theorem fullTextHead_events (env : Env) (q : Query) (st st2 : State)
    (as bs : List scorepair_t) :
    ∀ e ∈ fullTextSearches q ++ (artistSuggestions env q.id st as).2
        ++ (albumSuggestions env q.id st2 bs).2,
      e.isResults = false ∧ e.isFilesQuery = false ∧ e.isAttrQuery = false := by
  intro e he
  simp only [List.mem_append] at he
  rcases he with (he | he) | he
  · simp [fullTextSearches] at he
    rcases he with he | he | he <;> subst he <;> exact ⟨rfl, rfl, rfl⟩
  · rcases artistSuggestions_events env q.id as st e he with ⟨id, h⟩ | ⟨l, h⟩ <;> subst h <;>
      exact ⟨rfl, rfl, rfl⟩
  · rcases albumSuggestions_events env q.id bs st2 e he with ⟨id, h⟩ | ⟨l, h⟩ <;> subst h <;>
      exact ⟨rfl, rfl, rfl⟩

/-! ## `fullTextResolve` -/

/-- The shape of a `fullTextResolve` run: a head without `results` signal, file
join or `track_attributes` statement, followed either by the empty `results`
signal alone (no candidate of any kind), or by the file join, the
`track_attributes` statements of the row loop and the `results` signal with
the list the row loop built. -/
theorem fullTextResolve_trace (env : Env) (q : Query) (st : State) :
    ∃ (head : List Event) (st2 : State),
      (∀ e ∈ head, e.isResults = false ∧ e.isFilesQuery = false ∧ e.isAttrQuery = false) ∧
      ((env.lib.searchTable "track".toList q.fullTextQuery (some 20) = [] ∧
          (fullTextResolve env q st).2 = head ++ [Event.results q.id []]) ∨
       (∃ cond : Where,
          cond = (if (env.lib.searchTable "track".toList q.fullTextQuery (some 20)).length > 0
            then Where.tracks
              ((env.lib.searchTable "track".toList q.fullTextQuery (some 20)).map Prod.fst)
            else Where.zero) ∧
          (fullTextResolve env q st).2 =
            head ++ Event.filesQuery cond ::
              (fullTextRows env (env.lib.searchTable "track".toList q.fullTextQuery (some 20))
                st2 (env.lib.fileJoin.filter cond.eval)).2.2
              ++ [Event.results q.id
                (fullTextRows env (env.lib.searchTable "track".toList q.fullTextQuery (some 20))
                  st2 (env.lib.fileJoin.filter cond.eval)).2.1])) := by
  refine ⟨fullTextSearches q
      ++ (artistSuggestions env q.id st
          (env.lib.searchTable "artist".toList q.fullTextQuery (some 20))).2
      ++ (albumSuggestions env q.id
          (artistSuggestions env q.id st
            (env.lib.searchTable "artist".toList q.fullTextQuery (some 20))).1
          (env.lib.searchTable "album".toList q.fullTextQuery (some 20))).2,
    (albumSuggestions env q.id
      (artistSuggestions env q.id st
        (env.lib.searchTable "artist".toList q.fullTextQuery (some 20))).1
      (env.lib.searchTable "album".toList q.fullTextQuery (some 20))).1,
    fullTextHead_events env q _ _ _ _, ?_⟩
  unfold fullTextResolve
  by_cases hc : ((env.lib.searchTable "artist".toList q.fullTextQuery (some 20)).length == 0
      && (env.lib.searchTable "track".toList q.fullTextQuery (some 20)).length == 0
      && (env.lib.searchTable "album".toList q.fullTextQuery (some 20)).length == 0) = true
  · left
    have ht : env.lib.searchTable "track".toList q.fullTextQuery (some 20) = [] := by
      simp only [Bool.and_eq_true, beq_iff_eq, List.length_eq_zero] at hc
      exact hc.1.2
    refine ⟨ht, ?_⟩
    simp only [hc, if_true]
  · right
    refine ⟨_, rfl, ?_⟩
    simp only [hc, if_false, Bool.false_eq_true]

theorem filter_zero (rows : List Row) : rows.filter Where.zero.eval = [] := by
  rw [List.filter_eq_nil_iff]
  intro row _
  simp [Where.eval]

theorem fullTextRows_nil (env : Env) (trackPairs : List scorepair_t) (st : State) :
    fullTextRows env trackPairs st [] = (st, [], []) := rfl

theorem toUnsigned_small (i : Int) (h0 : 0 ≤ i) (h1 : i < 4294967296) :
    ((toUnsigned i : Nat) : Int) = i := by
  unfold toUnsigned
  rw [Int.emod_eq_of_lt h0 h1]
  exact Int.toNat_of_nonneg h0

/-- A run that ends with its only `results` signal. -/
theorem results_last (pre : List Event) (qid : QString) (res : List Result)
    (h : ∀ e ∈ pre, e.isResults = false) :
    (pre ++ [Event.results qid res]).filter Event.isResults = [Event.results qid res] ∧
    emittedResults (pre ++ [Event.results qid res]) = res := by
  constructor
  · rw [List.filter_append, filter_isResults_none pre h]
    rfl
  · rw [emittedResults_append, emittedResults_none pre h]
    simp [emittedResults, Event.resultsOf]

/-- The events of a run up to the end of the row loop hold no `results`
signal. -/
theorem no_results_before_end (head loopEvents : List Event) (cond : Where)
    (hh : ∀ e ∈ head, e.isResults = false) (hl : ∀ e ∈ loopEvents, ∃ t, e = Event.attrQuery t) :
    ∀ e ∈ head ++ Event.filesQuery cond :: loopEvents, e.isResults = false := by
  intro e he
  simp only [List.mem_append, List.mem_cons] at he
  rcases he with he | he | he
  · exact hh e he
  · subst he; rfl
  · obtain ⟨t, rfl⟩ := hl e he
    rfl

/-- C6: the file filter of `fullTextResolve`. Without track candidate the run
emits exactly one `results` signal and its list is empty, whatever the catalog
holds and whatever the artist and album candidates are; a file join executed
then has the constant false condition `0`. With track candidates, the trackId
of every emitted Result is the identifier of one of them (as an `unsigned
int`, which for an identifier from 0 to 2^32 - 1 is the identifier itself). -/
theorem fulltext_track_filter (env : Env) (q : Query) (st : State) :
    (env.lib.searchTable "track".toList q.fullTextQuery (some 20) = [] →
      (fullTextResolve env q st).2.filter Event.isResults = [Event.results q.id []] ∧
      emittedResults (fullTextResolve env q st).2 = [] ∧
      (∀ cond : Where, Event.filesQuery cond ∈ (fullTextResolve env q st).2 →
        cond = Where.zero ∧ ∀ row : Row, cond.eval row = false)) ∧
    (env.lib.searchTable "track".toList q.fullTextQuery (some 20) ≠ [] →
      ∀ r ∈ emittedResults (fullTextResolve env q st).2,
        ∃ p ∈ env.lib.searchTable "track".toList q.fullTextQuery (some 20),
          r.trackId = toUnsigned p.1) ∧
    (∀ i : Int, 0 ≤ i → i < 4294967296 → ((toUnsigned i : Nat) : Int) = i) := by
  obtain ⟨head, st2, hhead, hshape⟩ := fullTextResolve_trace env q st
  have hres : ∀ e ∈ head, e.isResults = false := fun e he => (hhead e he).1
  refine ⟨?_, ?_, toUnsigned_small⟩
  · intro ht
    rcases hshape with ⟨_, htrace⟩ | ⟨cond, hcond, htrace⟩
    · rw [htrace]
      refine ⟨(results_last head q.id [] hres).1, (results_last head q.id [] hres).2, ?_⟩
      intro c hc
      simp only [List.mem_append, List.mem_singleton] at hc
      rcases hc with hc | hc
      · have := (hhead _ hc).2.1
        simp [Event.isFilesQuery] at this
      · cases hc
    · rw [ht] at hcond htrace
      simp only [List.length_nil, gt_iff_lt, lt_self_iff_false, if_false] at hcond
      subst hcond
      rw [filter_zero, fullTextRows_nil] at htrace
      rw [htrace]
      have hpre := no_results_before_end head [] Where.zero hres (by simp)
      refine ⟨(results_last _ q.id [] hpre).1, (results_last _ q.id [] hpre).2, ?_⟩
      intro c hc
      simp only [List.mem_append, List.mem_cons, List.mem_singleton,
        List.not_mem_nil, or_false] at hc
      rcases hc with (hc | hc) | hc
      · have := (hhead _ hc).2.1
        simp [Event.isFilesQuery] at this
      · cases hc
        exact ⟨rfl, fun _ => rfl⟩
      · cases hc
  · intro ht r hr
    rcases hshape with ⟨ht0, _⟩ | ⟨cond, hcond, htrace⟩
    · exact absurd ht0 ht
    · have hlen : (env.lib.searchTable "track".toList q.fullTextQuery (some 20)).length > 0 :=
        List.length_pos.mpr ht
      rw [if_pos hlen] at hcond
      subst hcond
      rw [htrace] at hr
      rw [(results_last _ q.id _ (no_results_before_end head _ _ hres
        (fullTextRows_events _ _ _ _))).2] at hr
      obtain ⟨row, hrow, st3, s, url, _, rfl⟩ := fullTextRows_mem _ _ _ _ r hr
      rw [List.mem_filter] at hrow
      have hin := hrow.2
      simp only [Where.eval, sqlIn] at hin
      rw [attachAttributes_trackId, backfillScore_trackId, populate_trackId]
      cases hv : row.fj_track with
      | none => rw [hv] at hin; simp at hin
      | some v =>
        rw [hv] at hin
        have hmem : v ∈ (env.lib.searchTable "track".toList q.fullTextQuery (some 20)).map
            Prod.fst := by
          simpa using hin
        obtain ⟨p, hp, hpv⟩ := List.mem_map.mp hmem
        refine ⟨p, hp, ?_⟩
        subst hpv
        rfl

/-- Witness of `fulltext_track_filter`: the text "punk" has an artist and an
album candidate but no track candidate, and no Result is emitted; the text
"daft" has the track candidates 10 and 11, and the emitted Results are the
two files of track 10 whose source resolves. -/
theorem fulltext_track_filter_witness :
    sampleEnv.lib.searchTable "track".toList (textQuery "punk").fullTextQuery (some 20) = [] ∧
    sampleEnv.lib.searchTable "artist".toList (textQuery "punk").fullTextQuery (some 20) ≠ [] ∧
    emittedResults (fullTextResolve sampleEnv (textQuery "punk") State.initial).2 = [] ∧
    (emittedResults (fullTextResolve sampleEnv (textQuery "daft") State.initial).2).map
      Result.trackId = [10, 10] :=
  ⟨by decide, by decide,
   ((fulltext_track_filter sampleEnv (textQuery "punk") State.initial).1 (by decide)).2.1,
   by decide⟩

/-! ## Rows with a dangling source -/

theorem rowSource_none_iff (sl : SourceList) (row : Row) :
    rowSource sl row = none ↔ (toUInt row.source ≠ 0 ∧ sl.get (toUInt row.source) = none) := by
  unfold rowSource
  by_cases h : toUInt row.source = 0
  · simp [h]
  · have h0 : (toUInt row.source == 0) = false := by simpa using h
    cases hg : sl.get (toUInt row.source) with
    | none => simp [h0, hg, h]
    | some s => simp [h0, hg]

theorem rowSource_keep (sl : SourceList) (row : Row) :
    (toUInt row.source == 0 || (sl.get (toUInt row.source)).isSome) = (rowSource sl row).isSome := by
  cases hs : rowSource sl row with
  | none =>
    obtain ⟨h1, h2⟩ := (rowSource_none_iff sl row).mp hs
    have h0 : (toUInt row.source == 0) = false := by simpa using h1
    simp [h0, h2]
  | some su =>
    have hne : ¬ (toUInt row.source ≠ 0 ∧ sl.get (toUInt row.source) = none) := by
      intro hc
      rw [(rowSource_none_iff sl row).mpr hc] at hs
      cases hs
    by_cases h : toUInt row.source = 0
    · simp [h]
    · have : sl.get (toUInt row.source) ≠ none := fun hc => hne ⟨h, hc⟩
      cases hg : sl.get (toUInt row.source) with
      | none => exact absurd hg this
      | some s => simp

theorem resolveRows_skip (env : Env) (pre post : List Row) (row : Row) (st : State)
    (h : rowSource env.sourceList row = none) :
    resolveRows env st (pre ++ row :: post) = resolveRows env st (pre ++ post) := by
  induction pre generalizing st with
  | nil => simp only [List.nil_append, resolveRows, h]
  | cons r rs ih =>
    simp only [List.cons_append, resolveRows]
    cases hs : rowSource env.sourceList r with
    | none => exact ih st
    | some su => simp only [List.append_eq, ih]

theorem fullTextRows_skip (env : Env) (trackPairs : List scorepair_t) (pre post : List Row)
    (row : Row) (st : State) (h : rowSource env.sourceList row = none) :
    fullTextRows env trackPairs st (pre ++ row :: post)
      = fullTextRows env trackPairs st (pre ++ post) := by
  induction pre generalizing st with
  | nil => simp only [List.nil_append, fullTextRows, h]
  | cons r rs ih =>
    simp only [List.cons_append, fullTextRows]
    cases hs : rowSource env.sourceList r with
    | none => exact ih st
    | some su => simp only [List.append_eq, ih]

theorem resolveRows_fromRow (env : Env) (rows : List Row) (st : State) :
    List.Forall₂ (Result.fromRow env.sourceList)
      (rows.filter (fun row =>
        toUInt row.source == 0 || (env.sourceList.get (toUInt row.source)).isSome))
      (resolveRows env st rows).2.1 := by
  induction rows generalizing st with
  | nil => exact List.Forall₂.nil
  | cons row rows ih =>
    rw [List.filter_cons, rowSource_keep]
    unfold resolveRows
    cases hs : rowSource env.sourceList row with
    | none => exact ih st
    | some su =>
      obtain ⟨s, url⟩ := su
      simp only [Option.isSome_some, if_true]
      refine List.Forall₂.cons ?_ (ih _)
      exact ⟨⟨s, hs, rfl⟩, rfl, rfl, rfl, rfl, rfl, rfl, rfl, rfl, rfl⟩

theorem fullTextRows_fromRow (env : Env) (trackPairs : List scorepair_t) (rows : List Row)
    (st : State) :
    List.Forall₂ (Result.fromRow env.sourceList)
      (rows.filter (fun row =>
        toUInt row.source == 0 || (env.sourceList.get (toUInt row.source)).isSome))
      (fullTextRows env trackPairs st rows).2.1 := by
  induction rows generalizing st with
  | nil => exact List.Forall₂.nil
  | cons row rows ih =>
    rw [List.filter_cons, rowSource_keep]
    unfold fullTextRows
    cases hs : rowSource env.sourceList row with
    | none => exact ih st
    | some su =>
      obtain ⟨s, url⟩ := su
      simp only [Option.isSome_some, if_true]
      refine List.Forall₂.cons ?_ (ih _)
      unfold Result.fromRow
      simp only [backfillScore_eq]
      exact ⟨⟨s, hs, rfl⟩, rfl, rfl, rfl, rfl, rfl, rfl, rfl, rfl, rfl⟩

/-- The `results` signal of `resolve`: one signal, carrying the query id and
the list the row loop builds from the rows the file join returns. -/
theorem resolve_emitted (env : Env) (q : Query) (st : State) :
    ∃ rows : List Row, rows.Sublist env.lib.fileJoin ∧
      (resolve env q st).2.filter Event.isResults
        = [Event.results q.id (resolveRows env st rows).2.1] ∧
      emittedResults (resolve env q st).2 = (resolveRows env st rows).2.1 := by
  have hs : ∀ e ∈ resolveSearches q, e.isResults = false := by
    intro e he
    simp [resolveSearches] at he
    rcases he with he | he | he <;> subst he <;> rfl
  unfold resolve
  by_cases hc : ((env.lib.searchTable "artist".toList q.artist none).length == 0
      || (env.lib.searchTable "track".toList q.track none).length == 0) = true
  · refine ⟨[], List.nil_sublist _, ?_⟩
    simp only [hc, if_true]
    exact results_last _ q.id [] hs
  · refine ⟨env.lib.fileJoin.filter (Where.artistsAndTracks
        ((env.lib.searchTable "artist".toList q.artist none).map Prod.fst)
        ((env.lib.searchTable "track".toList q.track none).map Prod.fst)).eval,
      List.filter_sublist _, ?_⟩
    simp only [hc, if_false, Bool.false_eq_true]
    exact results_last _ q.id _ (no_results_before_end _ _ _ hs (resolveRows_events _ _ _))

/-- The `results` signal of `fullTextResolve`: one signal, carrying the query id
and the list the row loop builds from the rows the file join returns. -/
theorem fullTextResolve_emitted (env : Env) (q : Query) (st : State) :
    ∃ (st2 : State) (rows : List Row), rows.Sublist env.lib.fileJoin ∧
      (fullTextResolve env q st).2.filter Event.isResults
        = [Event.results q.id
            (fullTextRows env (env.lib.searchTable "track".toList q.fullTextQuery (some 20))
              st2 rows).2.1] ∧
      emittedResults (fullTextResolve env q st).2
        = (fullTextRows env (env.lib.searchTable "track".toList q.fullTextQuery (some 20))
            st2 rows).2.1 := by
  obtain ⟨head, st2, hhead, hshape⟩ := fullTextResolve_trace env q st
  have hres : ∀ e ∈ head, e.isResults = false := fun e he => (hhead e he).1
  rcases hshape with ⟨_, htrace⟩ | ⟨cond, _, htrace⟩
  · refine ⟨st2, [], List.nil_sublist _, ?_⟩
    rw [htrace]
    exact results_last head q.id [] hres
  · refine ⟨st2, env.lib.fileJoin.filter cond.eval, List.filter_sublist _, ?_⟩
    rw [htrace]
    exact results_last _ q.id _ (no_results_before_end head _ _ hres
      (fullTextRows_events _ _ _ _))

/-- C7: rows with a dangling source are skipped, not fatal. In `resolve` and in
`fullTextResolve` alike, the list built from a sequence of joined rows holds,
in row order, exactly one Result for each row whose source id is 0 or resolves
in the source registry, and the emitted list is such a list for rows of the
file join. A row whose non-zero source id does not resolve may be taken out of
the sequence without any change to the outcome of the loop: Results, state and
statements executed for the rows before and after it are the same. -/
theorem dangling_sources_skipped (env : Env) (q : Query) (st : State)
    (trackPairs : List scorepair_t) (rows : List Row) :
    List.Forall₂ (Result.fromRow env.sourceList)
      (rows.filter (fun row =>
        toUInt row.source == 0 || (env.sourceList.get (toUInt row.source)).isSome))
      (resolveRows env st rows).2.1 ∧
    List.Forall₂ (Result.fromRow env.sourceList)
      (rows.filter (fun row =>
        toUInt row.source == 0 || (env.sourceList.get (toUInt row.source)).isSome))
      (fullTextRows env trackPairs st rows).2.1 ∧
    (∀ (pre post : List Row) (row : Row), toUInt row.source ≠ 0 →
      env.sourceList.get (toUInt row.source) = none →
      resolveRows env st (pre ++ row :: post) = resolveRows env st (pre ++ post) ∧
      fullTextRows env trackPairs st (pre ++ row :: post)
        = fullTextRows env trackPairs st (pre ++ post)) ∧
    (∃ joined : List Row, joined.Sublist env.lib.fileJoin ∧
      List.Forall₂ (Result.fromRow env.sourceList)
        (joined.filter (fun row =>
          toUInt row.source == 0 || (env.sourceList.get (toUInt row.source)).isSome))
        (emittedResults (resolve env q st).2)) ∧
    (∃ joined : List Row, joined.Sublist env.lib.fileJoin ∧
      List.Forall₂ (Result.fromRow env.sourceList)
        (joined.filter (fun row =>
          toUInt row.source == 0 || (env.sourceList.get (toUInt row.source)).isSome))
        (emittedResults (fullTextResolve env q st).2)) := by
  refine ⟨resolveRows_fromRow env rows st, fullTextRows_fromRow env trackPairs rows st, ?_, ?_, ?_⟩
  · intro pre post row h1 h2
    have hn := (rowSource_none_iff env.sourceList row).mpr ⟨h1, h2⟩
    exact ⟨resolveRows_skip env pre post row st hn,
      fullTextRows_skip env trackPairs pre post row st hn⟩
  · obtain ⟨joined, hsub, _, he⟩ := resolve_emitted env q st
    exact ⟨joined, hsub, he ▸ resolveRows_fromRow env joined st⟩
  · obtain ⟨st2, joined, hsub, _, he⟩ := fullTextResolve_emitted env q st
    exact ⟨joined, hsub, he ▸ fullTextRows_fromRow env _ joined st2⟩

/-- Witness of `dangling_sources_skipped`: of the four rows of the sample
catalog the third has the unknown source 9; the loop builds three Results, for
the first, second and fourth row, and they are the Results built without the
third row. -/
theorem dangling_sources_skipped_witness :
    (resolveRows sampleEnv State.initial sampleLib.fileJoin).2.1.map Result.url
      = ["/m/a.mp3".toList, "servent://bob\tb.mp3".toList, "/m/d.mp3".toList] ∧
    resolveRows sampleEnv State.initial
        ([sampleRow "/m/a.mp3" 1 10 none, sampleRow "b.mp3" 1 10 (some 2)]
          ++ sampleRow "c.mp3" 1 11 (some 9) :: [sampleRow "/m/d.mp3" 1 12 (some 0)])
      = resolveRows sampleEnv State.initial
        ([sampleRow "/m/a.mp3" 1 10 none, sampleRow "b.mp3" 1 10 (some 2)]
          ++ [sampleRow "/m/d.mp3" 1 12 (some 0)]) :=
  ⟨by decide,
   ((dangling_sources_skipped sampleEnv (fieldQuery "daft punk" "one more time") State.initial []
      []).2.2.1
      [sampleRow "/m/a.mp3" 1 10 none, sampleRow "b.mp3" 1 10 (some 2)]
      [sampleRow "/m/d.mp3" 1 12 (some 0)] (sampleRow "c.mp3" 1 11 (some 9))
      (by decide) (by decide)).1⟩

/-! ## The suggestion signals -/

theorem artistSuggestions_count (env : Env) (qid : QString) (pairs : List scorepair_t)
    (st : State) :
    ((artistSuggestions env qid st pairs).2.filter Event.isArtists).length = pairs.length ∧
    (artistSuggestions env qid st pairs).2.filter Event.isAlbums = [] := by
  induction pairs generalizing st with
  | nil => exact ⟨rfl, rfl⟩
  | cons p ps ih =>
    unfold artistSuggestions
    simp only [List.filter_cons, Event.isArtists, Event.isAlbums, Bool.false_eq_true, if_false,
      if_true, List.length_cons]
    exact ⟨congrArg (· + 1) (ih _).1, (ih _).2⟩

theorem albumSuggestions_count (env : Env) (qid : QString) (pairs : List scorepair_t)
    (st : State) :
    ((albumSuggestions env qid st pairs).2.filter Event.isAlbums).length = pairs.length ∧
    (albumSuggestions env qid st pairs).2.filter Event.isArtists = [] := by
  induction pairs generalizing st with
  | nil => exact ⟨rfl, rfl⟩
  | cons p ps ih =>
    unfold albumSuggestions
    simp only [List.filter_cons, Event.isArtists, Event.isAlbums, Bool.false_eq_true, if_false,
      if_true, List.length_cons]
    exact ⟨congrArg (· + 1) (ih _).1, (ih _).2⟩

theorem artistSuggestions_first (env : Env) (qid : QString) (pairs : List scorepair_t)
    (st : State) (h : pairs ≠ []) :
    ∃ l, Event.artists qid l ∈ (artistSuggestions env qid st pairs).2 := by
  cases pairs with
  | nil => exact absurd rfl h
  | cons p ps =>
    unfold artistSuggestions
    exact ⟨_, List.mem_cons_of_mem _ (List.mem_cons_self _ _)⟩

theorem albumSuggestions_first (env : Env) (qid : QString) (pairs : List scorepair_t)
    (st : State) (h : pairs ≠ []) :
    ∃ l, Event.albums qid l ∈ (albumSuggestions env qid st pairs).2 := by
  cases pairs with
  | nil => exact absurd rfl h
  | cons p ps =>
    unfold albumSuggestions
    exact ⟨_, List.mem_cons_of_mem _ (List.mem_cons_self _ _)⟩

/-- A `fullTextResolve` run begins with the three searches, the artist loop
and the album loop; what follows holds no `artists` and no `albums` signal. -/
theorem fullTextResolve_split (env : Env) (q : Query) (st : State) :
    ∃ (st1 : State) (tail : List Event),
      (fullTextResolve env q st).2 =
        fullTextSearches q
          ++ (artistSuggestions env q.id st
              (env.lib.searchTable "artist".toList q.fullTextQuery (some 20))).2
          ++ (albumSuggestions env q.id st1
              (env.lib.searchTable "album".toList q.fullTextQuery (some 20))).2
          ++ tail ∧
      tail.filter Event.isArtists = [] ∧ tail.filter Event.isAlbums = [] := by
  refine ⟨(artistSuggestions env q.id st
      (env.lib.searchTable "artist".toList q.fullTextQuery (some 20))).1, ?_⟩
  unfold fullTextResolve
  by_cases hc : ((env.lib.searchTable "artist".toList q.fullTextQuery (some 20)).length == 0
      && (env.lib.searchTable "track".toList q.fullTextQuery (some 20)).length == 0
      && (env.lib.searchTable "album".toList q.fullTextQuery (some 20)).length == 0) = true
  · refine ⟨[Event.results q.id []], ?_, rfl, rfl⟩
    simp only [hc, if_true]
  · simp only [hc, if_false, Bool.false_eq_true]
    refine ⟨_, List.append_assoc _ _ _, ?_, ?_⟩
    · rw [List.filter_eq_nil_iff]
      intro e he
      simp only [List.mem_cons, List.mem_append, List.not_mem_nil, or_false] at he
      rcases he with (he | he) | he
      · subst he; simp [Event.isArtists]
      · obtain ⟨t, rfl⟩ := fullTextRows_events _ _ _ _ e he
        simp [Event.isArtists]
      · subst he; simp [Event.isArtists]
    · rw [List.filter_eq_nil_iff]
      intro e he
      simp only [List.mem_cons, List.mem_append, List.not_mem_nil, or_false] at he
      rcases he with (he | he) | he
      · subst he; simp [Event.isAlbums]
      · obtain ⟨t, rfl⟩ := fullTextRows_events _ _ _ _ e he
        simp [Event.isAlbums]
      · subst he; simp [Event.isAlbums]

/-- C8: the suggestion signals of `fullTextResolve` do not depend on the file
results. Whenever the artist candidate list is non-empty the run emits an
`artists` signal, and whenever the album candidate list is non-empty it emits
an `albums` signal, whatever the track candidate list and the catalog are; the
run emits as many `artists` signals as there are artist candidates and as many
`albums` signals as there are album candidates. -/
theorem suggestions_independent (env : Env) (q : Query) (st : State) :
    (env.lib.searchTable "artist".toList q.fullTextQuery (some 20) ≠ [] →
      ∃ l, Event.artists q.id l ∈ (fullTextResolve env q st).2) ∧
    (env.lib.searchTable "album".toList q.fullTextQuery (some 20) ≠ [] →
      ∃ l, Event.albums q.id l ∈ (fullTextResolve env q st).2) ∧
    ((fullTextResolve env q st).2.filter Event.isArtists).length
      = (env.lib.searchTable "artist".toList q.fullTextQuery (some 20)).length ∧
    ((fullTextResolve env q st).2.filter Event.isAlbums).length
      = (env.lib.searchTable "album".toList q.fullTextQuery (some 20)).length := by
  obtain ⟨st1, tail, htrace, ht1, ht2⟩ := fullTextResolve_split env q st
  have hs1 : (fullTextSearches q).filter Event.isArtists = [] := rfl
  have hs2 : (fullTextSearches q).filter Event.isAlbums = [] := rfl
  rw [htrace]
  refine ⟨?_, ?_, ?_, ?_⟩
  · intro h
    obtain ⟨l, hl⟩ := artistSuggestions_first env q.id _ st h
    exact ⟨l, by simp only [List.mem_append]; exact Or.inl (Or.inl (Or.inr hl))⟩
  · intro h
    obtain ⟨l, hl⟩ := albumSuggestions_first env q.id _ st1 h
    exact ⟨l, by simp only [List.mem_append]; exact Or.inl (Or.inr hl)⟩
  · simp only [List.filter_append, hs1, ht1, (albumSuggestions_count env q.id _ st1).2,
      List.nil_append, List.append_nil]
    exact (artistSuggestions_count env q.id _ st).1
  · simp only [List.filter_append, hs2, ht2, (artistSuggestions_count env q.id _ st).2,
      List.nil_append, List.append_nil]
    exact (albumSuggestions_count env q.id _ st1).1

/-- Witness of `suggestions_independent`: for the text "punk" the sample
catalog has an artist and an album candidate but no track candidate; the run
emits the artist "Daft Punk" and the album "Discovery" and an empty result
list. -/
theorem suggestions_independent_witness :
    sampleEnv.lib.searchTable "artist".toList (textQuery "punk").fullTextQuery (some 20) ≠ [] ∧
    sampleEnv.lib.searchTable "track".toList (textQuery "punk").fullTextQuery (some 20) = [] ∧
    (∃ l, Event.artists "q2".toList l
      ∈ (fullTextResolve sampleEnv (textQuery "punk") State.initial).2) ∧
    (fullTextResolve sampleEnv (textQuery "punk") State.initial).2.filter
        (fun e => e.isArtists || e.isAlbums || e.isResults)
      = [Event.artists "q2".toList [some ⟨0, 1, "Daft Punk".toList, "daft punk".toList⟩],
         Event.albums "q2".toList
          [some ⟨1, 5, "Discovery".toList,
            some ⟨0, 1, "Daft Punk".toList, "daft punk".toList⟩⟩],
         Event.results "q2".toList []] :=
  ⟨by decide, by decide,
   (suggestions_independent sampleEnv (textQuery "punk") State.initial).1 (by decide),
   by decide⟩

/-! ## Scores -/

/-- A run of `exec` that ends is the hint short-circuit, which emits the one
`results` signal with the hint result and nothing else, or it is the normal
resolution of the query. -/
theorem exec_some (env : Env) (q : Query) (st : State) (out : State × List Event)
    (h : exec env q st = some out) :
    (∃ r : Result, q.resultHint ≠ [] ∧ env.lib.resultFromHint q = some r ∧
      out = (st, [Event.results q.id [r]])) ∨
    out = normalResolve env q st := by
  unfold exec at h
  by_cases hh : (!q.resultHint.isEmpty) = true
  · have hne : q.resultHint ≠ [] := by
      intro hn
      rw [hn] at hh
      simp at hh
    rw [if_pos hh] at h
    cases hres : env.lib.resultFromHint q with
    | none =>
      rw [hres] at h
      cases h
      exact Or.inr rfl
    | some result =>
      rw [hres] at h
      cases hcol : result.collection with
      | none =>
        simp only [hcol] at h
        cases h
        exact Or.inr rfl
      | some c =>
        simp only [hcol] at h
        cases hsrc : env.collectionSource c with
        | none =>
          simp only [hsrc] at h
          cases h
        | some s =>
          simp only [hsrc] at h
          by_cases hon : s.isOnline = true
          · rw [if_pos hon] at h
            cases h
            exact Or.inl ⟨result, hne, rfl, rfl⟩
          · rw [if_neg hon] at h
            cases h
            exact Or.inr rfl
  · rw [if_neg hh] at h
    cases h
    exact Or.inr rfl

/-- The id-based accessor hands out a non-null pointer, and stores none but
non-null pointers, as long as the cache holds no null pointer. -/
theorem Artist.get_nonnull (sortname : QString → QString) (st : State) (id : Nat)
    (name : QString) (h : ∀ e ∈ st.s_artists, e.2 ≠ none) :
    (Artist.get sortname st id name).1 ≠ none ∧
    ∀ e ∈ (Artist.get sortname st id name).2.s_artists, e.2 ≠ none := by
  unfold Artist.get
  by_cases hc : QHash.contains st.s_artists id = true
  · simp only [hc, if_true]
    refine ⟨?_, h⟩
    unfold QHash.value
    cases hf : st.s_artists.find? (fun e => e.1 == id) with
    | none =>
      exfalso
      unfold QHash.contains at hc
      rw [List.any_eq_true] at hc
      obtain ⟨e, he, hk⟩ := hc
      have := List.find?_eq_none.mp hf e he
      exact this hk
    | some e => exact h e (List.mem_of_find?_eq_some hf)
  · by_cases hp : id > 0
    · simp only [hc, hp, if_true, Bool.false_eq_true, if_false]
      refine ⟨by simp, ?_⟩
      intro e he
      unfold QHash.insert at he
      rcases List.mem_cons.mp he with he | he
      · subst he; simp
      · exact h e (List.mem_filter.mp he).1
    · simp only [hc, hp, Bool.false_eq_true, if_false]
      exact ⟨by simp, h⟩

/-- C11: the name-based accessor `Artist::get( name, autoCreate )`. Its outcome
is determined by the id that `artistId( name, autoCreate )` returns: with
`autoCreate` set and an id below 1 it is the null pointer and the state (the
cache with it) is left as it was; in every other case it is the outcome of the
id-based `Artist::get( id, name )` for that id (passed as `unsigned int`, which
for an id from 0 on is the id itself). In those cases, `autoCreate` unset with
an unresolved name among them, the pointer is non-null, given a cache that
holds no null pointer, as every cache built by these accessors does. -/
theorem artist_get_by_name (lib : DatabaseImpl) (st : State) (name : QString)
    (autoCreate : Bool) :
    (autoCreate = true → lib.artistId name autoCreate < 1 →
      Artist.getByName lib st name autoCreate = (none, st)) ∧
    (¬ (autoCreate = true ∧ lib.artistId name autoCreate < 1) →
      Artist.getByName lib st name autoCreate
        = Artist.get lib.sortname st (toUnsigned (lib.artistId name autoCreate)) name) ∧
    ((∀ e ∈ st.s_artists, e.2 ≠ none) →
      ¬ (autoCreate = true ∧ lib.artistId name autoCreate < 1) →
      (Artist.getByName lib st name autoCreate).1 ≠ none ∧
      ∀ e ∈ (Artist.getByName lib st name autoCreate).2.s_artists, e.2 ≠ none) ∧
    (0 ≤ lib.artistId name autoCreate → lib.artistId name autoCreate < 4294967296 →
      ((toUnsigned (lib.artistId name autoCreate) : Nat) : Int)
        = lib.artistId name autoCreate) := by
  have h2 : ¬ (autoCreate = true ∧ lib.artistId name autoCreate < 1) →
      Artist.getByName lib st name autoCreate
        = Artist.get lib.sortname st (toUnsigned (lib.artistId name autoCreate)) name := by
    intro h
    unfold Artist.getByName
    have hc : (decide (lib.artistId name autoCreate < 1) && autoCreate) = false := by
      by_cases ha : autoCreate = true
      · have : ¬ lib.artistId name autoCreate < 1 := fun hl => h ⟨ha, hl⟩
        simp [this]
      · simp [ha]
    simp only [hc, Bool.false_eq_true, if_false]
  refine ⟨?_, h2, ?_, toUnsigned_small _⟩
  · intro ha hl
    subst ha
    unfold Artist.getByName
    have hc : (decide (lib.artistId name true < 1) && true) = true := by simp [hl]
    simp only [hc, if_true]
  · intro hinv h
    rw [h2 h]
    exact Artist.get_nonnull lib.sortname st _ name hinv

/-- Witness of `artist_get_by_name`: the empty name cannot be created (id 0
with `autoCreate`) and gives the null pointer; the unknown name "Beck" without
`autoCreate` (id 0) gives a new, uncached entity; "Daft Punk" (id 1) gives the
entity of the id-based accessor, which is cached. -/
theorem artist_get_by_name_witness :
    Artist.getByName lookupLib State.initial [] true = (none, State.initial) ∧
    Artist.getByName lookupLib State.initial "Beck".toList false
      = (some ⟨0, 0, "Beck".toList, "beck".toList⟩,
         { State.initial with heapNext := 1 }) ∧
    Artist.getByName lookupLib State.initial "Daft Punk".toList false
      = Artist.get sampleSortname State.initial 1 "Daft Punk".toList ∧
    (Artist.getByName lookupLib State.initial "Beck".toList false).1 ≠ none := by
  refine ⟨?_, ?_, ?_, ?_⟩
  · exact (artist_get_by_name lookupLib State.initial [] true).1 rfl (by decide)
  · rw [(artist_get_by_name lookupLib State.initial "Beck".toList false).2.1 (by decide)]
    decide
  · rw [(artist_get_by_name lookupLib State.initial "Daft Punk".toList false).2.1 (by decide)]
    decide
  · exact ((artist_get_by_name lookupLib State.initial "Beck".toList false).2.2.1
      (by decide) (by decide)).1


/-! ## Completion of a run -/

/-- A `resolve` run emits no `artists` and no `albums` signal. -/
theorem resolve_no_suggestions (env : Env) (q : Query) (st : State) :
    ∀ e ∈ (resolve env q st).2, e.isArtists = false ∧ e.isAlbums = false := by
  have hs : ∀ e ∈ resolveSearches q, e.isArtists = false ∧ e.isAlbums = false := by
    intro e he
    simp [resolveSearches] at he
    rcases he with he | he | he <;> subst he <;> exact ⟨rfl, rfl⟩
  intro e he
  unfold resolve at he
  by_cases hc : ((env.lib.searchTable "artist".toList q.artist none).length == 0
      || (env.lib.searchTable "track".toList q.track none).length == 0) = true
  · simp only [hc, if_true, List.mem_append, List.mem_cons, List.not_mem_nil, or_false] at he
    rcases he with he | he
    · exact hs e he
    · subst he; exact ⟨rfl, rfl⟩
  · simp only [hc, if_false, Bool.false_eq_true, List.mem_append, List.mem_cons,
      List.not_mem_nil, or_false] at he
    rcases he with (he | he | he) | he
    · exact hs e he
    · subst he; exact ⟨rfl, rfl⟩
    · obtain ⟨t, rfl⟩ := resolveRows_events _ _ _ e he
      exact ⟨rfl, rfl⟩
    · subst he; exact ⟨rfl, rfl⟩

/-- The one case in which a run of `exec` does not end: a hint whose result
has a collection without source. -/
theorem exec_none_iff (env : Env) (q : Query) (st : State) :
    exec env q st = none ↔
      (q.resultHint ≠ [] ∧ ∃ (r : Result) (c : Nat), env.lib.resultFromHint q = some r ∧
        r.collection = some c ∧ env.collectionSource c = none) := by
  constructor
  · intro h
    unfold exec at h
    by_cases hh : (!q.resultHint.isEmpty) = true
    · have hne : q.resultHint ≠ [] := by
        intro hn
        rw [hn] at hh
        simp at hh
      rw [if_pos hh] at h
      cases hres : env.lib.resultFromHint q with
      | none =>
        rw [hres] at h
        cases h
      | some result =>
        rw [hres] at h
        cases hcol : result.collection with
        | none =>
          simp only [hcol] at h
          cases h
        | some c =>
          simp only [hcol] at h
          cases hsrc : env.collectionSource c with
          | none => exact ⟨hne, result, c, rfl, hcol, hsrc⟩
          | some s =>
            simp only [hsrc] at h
            by_cases hon : s.isOnline = true
            · rw [if_pos hon] at h
              cases h
            · rw [if_neg hon] at h
              cases h
    · rw [if_neg hh] at h
      cases h
  · rintro ⟨hne, r, c, h1, h2, h3⟩
    exact (exec_hint_cases env q st hne).2.2.2.2.1 r c h1 h2 h3

/-- Every run of `exec` that ends emits exactly one `results` signal, with the
id of the query; it emits no `artists` and no `albums` signal when the query is
no full-text query, and none on the hint short-circuit. -/
theorem exec_completion (env : Env) (q : Query) (st : State) (out : State × List Event)
    (h : exec env q st = some out) :
    (∃ res : List Result, out.2.filter Event.isResults = [Event.results q.id res]) ∧
    (q.isFullTextQuery = false →
      out.2.filter (fun e => e.isArtists || e.isAlbums) = []) ∧
    (∀ r : Result, out = (st, [Event.results q.id [r]]) →
      out.2.filter (fun e => e.isArtists || e.isAlbums) = []) := by
  refine ⟨?_, ?_, ?_⟩
  · rcases exec_some env q st out h with ⟨r, _, _, rfl⟩ | rfl
    · exact ⟨[r], rfl⟩
    · unfold normalResolve
      by_cases hf : q.isFullTextQuery = true
      · rw [if_pos hf]
        obtain ⟨st2, rows, _, he, _⟩ := fullTextResolve_emitted env q st
        exact ⟨_, he⟩
      · rw [if_neg hf]
        obtain ⟨rows, _, he, _⟩ := resolve_emitted env q st
        exact ⟨_, he⟩
  · intro hf
    rcases exec_some env q st out h with ⟨r, _, _, rfl⟩ | rfl
    · rfl
    · unfold normalResolve
      rw [hf]
      simp only [Bool.false_eq_true, if_false]
      rw [List.filter_eq_nil_iff]
      intro e he
      have := resolve_no_suggestions env q st e he
      simp [this.1, this.2]
  · rintro r rfl
    rfl

/-- C13, at the failing input: a run of `exec` is to emit exactly one `results`
signal for every query, with or without hint. For a full-text query whose hint
lookup yields a result with a collection that has no source, no storage query
fails, yet the run dereferences the null source in the hint check and ends
there (`none`): it emits no `results` signal. The same query without hint
emits exactly one, with its id. -/
theorem exec_no_completion :
    ({ textQuery "daft" with resultHint := "orphan".toList } : Query).isFullTextQuery = true ∧
    (sampleEnv.lib.resultFromHint { textQuery "daft" with resultHint := "orphan".toList }).map
        Result.collection = some (some 7) ∧
    sampleEnv.collectionSource 7 = none ∧
    exec sampleEnv { textQuery "daft" with resultHint := "orphan".toList } State.initial
      = none ∧
    (exec sampleEnv (textQuery "daft") State.initial).map
        (fun out => (out.2.filter Event.isResults).map
          (fun e => (e.isResults, (Event.resultsOf e).length)))
      = some [(true, 2)] := by
  refine ⟨rfl, by decide, by decide, by decide, by decide⟩

theorem Artist.getMany_append (sortname : QString → QString) (a b : List (Nat × QString))
    (st : State) :
    Artist.getMany sortname st (a ++ b)
      = Artist.getMany sortname (Artist.getMany sortname st a) b := by
  induction a generalizing st with
  | nil => rfl
  | cons c cs ih =>
    obtain ⟨id, name⟩ := c
    simp only [List.cons_append, Artist.getMany]
    exact ih _

theorem Artist.getEach_append (sortname : QString → QString) (a b : List (Nat × QString))
    (st : State) :
    Artist.getEach sortname st (a ++ b)
      = Artist.getEach sortname st a
        ++ Artist.getEach sortname (Artist.getMany sortname st a) b := by
  induction a generalizing st with
  | nil => rfl
  | cons c cs ih =>
    obtain ⟨id, name⟩ := c
    simp only [List.cons_append, Artist.getEach, Artist.getMany]
    exact congrArg _ (ih _)

theorem album_getMany_append (sortname : QString → QString)
    (a b : List (Nat × QString × Nat × QString)) (st : State) :
    Album.getMany sortname st (a ++ b)
      = Album.getMany sortname (Album.getMany sortname st a) b := by
  induction a generalizing st with
  | nil => rfl
  | cons c cs ih =>
    simp only [List.cons_append, Album.getMany]
    exact ih _

theorem album_getEach_append (sortname : QString → QString)
    (a b : List (Nat × QString × Nat × QString)) (st : State) :
    Album.getEach sortname st (a ++ b)
      = Album.getEach sortname st a
        ++ Album.getEach sortname (Album.getMany sortname st a) b := by
  induction a generalizing st with
  | nil => rfl
  | cons c cs ih =>
    simp only [List.cons_append, Album.getEach, Album.getMany]
    exact congrArg _ (ih _)

/-- The inner loop of the artist loop is the sequence of registry calls for
its rows. -/
theorem artistListOf_calls (sortname : QString → QString) (id : Int)
    (names : List (Option QString)) (st : State) :
    artistListOf sortname id st names
      = (Artist.getMany sortname st (names.map (fun name => (toUnsigned id, toQString name))),
         Artist.getEach sortname st (names.map (fun name => (toUnsigned id, toQString name)))) := by
  induction names generalizing st with
  | nil => rfl
  | cons name names ih =>
    simp only [artistListOf, List.map_cons, Artist.getMany, Artist.getEach]
    rw [ih]

/-- The inner loop of the album loop is the sequence of album look-ups for its
rows. -/
theorem albumListOf_calls (sortname : QString → QString) (id : Int)
    (rows : List (Option QString × Option Int × Option QString)) (st : State) :
    albumListOf sortname id st rows
      = (Album.getMany sortname st
          (rows.map (fun r => (toUnsigned id, toQString r.1, toUInt r.2.1, toQString r.2.2))),
         Album.getEach sortname st
          (rows.map (fun r => (toUnsigned id, toQString r.1, toUInt r.2.1, toQString r.2.2)))) := by
  induction rows generalizing st with
  | nil => rfl
  | cons r rs ih =>
    simp only [albumListOf, List.map_cons, Album.getMany, Album.getEach, Album.resolve]
    rw [ih]

/-- The artist loop is the sequence of its registry calls: the state it leaves
and the Artists its signals carry, one after the other. -/
theorem artistSuggestions_calls (env : Env) (qid : QString) (pairs : List scorepair_t)
    (st : State) :
    (artistSuggestions env qid st pairs).1
      = Artist.getMany env.lib.sortname st (artistCalls env.lib pairs) ∧
    (artistSuggestions env qid st pairs).2.flatMap Event.artistsOf
      = Artist.getEach env.lib.sortname st (artistCalls env.lib pairs) := by
  induction pairs generalizing st with
  | nil => exact ⟨rfl, rfl⟩
  | cons p ps ih =>
    unfold artistSuggestions
    simp only [artistCalls, List.flatMap_cons, Event.artistsOf, List.nil_append,
      Artist.getMany_append, Artist.getEach_append, artistListOf_calls]
    exact ⟨(ih _).1, congrArg _ (ih _).2⟩

/-- The album loop is the sequence of its album look-ups. -/
theorem albumSuggestions_calls (env : Env) (qid : QString) (pairs : List scorepair_t)
    (st : State) :
    (albumSuggestions env qid st pairs).1
      = Album.getMany env.lib.sortname st (albumCalls env.lib pairs) ∧
    (albumSuggestions env qid st pairs).2.flatMap Event.albumsOf
      = Album.getEach env.lib.sortname st (albumCalls env.lib pairs) := by
  induction pairs generalizing st with
  | nil => exact ⟨rfl, rfl⟩
  | cons p ps ih =>
    unfold albumSuggestions
    simp only [albumCalls, List.flatMap_cons, Event.albumsOf, List.nil_append,
      album_getMany_append, album_getEach_append, albumListOf_calls]
    exact ⟨(ih _).1, congrArg _ (ih _).2⟩

theorem QHash.value_of_contains {V : Type} (h : List (Nat × V)) (k : Nat) (d : V)
    (hc : QHash.contains h k = true) :
    ∃ e ∈ h, e.1 = k ∧ QHash.value h k d = e.2 := by
  unfold QHash.value
  cases hf : h.find? (fun e => e.1 == k) with
  | none =>
    exfalso
    unfold QHash.contains at hc
    rw [List.any_eq_true] at hc
    obtain ⟨e, he, hk⟩ := hc
    exact List.find?_eq_none.mp hf e he hk
  | some e =>
    refine ⟨e, List.mem_of_find?_eq_some hf, ?_, rfl⟩
    have := List.find?_some hf
    simpa using this

/-- The id-based accessor keeps the caches filed, and what it hands out is an
Artist with the id asked for. -/
theorem Artist.get_filed (sortname : QString → QString) (st : State) (id : Nat)
    (name : QString) (h : st.filed) :
    (Artist.get sortname st id name).2.filed ∧
    ∃ art : Artist, (Artist.get sortname st id name).1 = some art ∧ art.m_id = id := by
  unfold Artist.get
  by_cases hc : QHash.contains st.s_artists id = true
  · simp only [hc, if_true]
    refine ⟨h, ?_⟩
    obtain ⟨e, he, hk, hv⟩ := QHash.value_of_contains st.s_artists id none hc
    obtain ⟨a, ha, hid⟩ := h.1 e he
    exact ⟨a, by rw [hv, ha], by rw [hid, hk]⟩
  · by_cases hp : id > 0
    · simp only [hc, hp, if_true, Bool.false_eq_true, if_false]
      refine ⟨⟨?_, h.2⟩, ⟨_, rfl, rfl⟩⟩
      intro e he
      unfold QHash.insert at he
      rcases List.mem_cons.mp he with he | he
      · subst he
        exact ⟨_, rfl, rfl⟩
      · exact h.1 e (List.mem_filter.mp he).1
    · simp only [hc, hp, Bool.false_eq_true, if_false]
      exact ⟨⟨h.1, h.2⟩, ⟨_, rfl, rfl⟩⟩

/-- The album accessor keeps the caches filed, and what it hands out is an
Album with the id asked for. -/
theorem album_get_filed (st : State) (id : Nat) (name : QString) (artist : artist_ptr)
    (h : st.filed) :
    (Album.get st id name artist).2.filed ∧
    ∃ alb : Album, (Album.get st id name artist).1 = some alb ∧ alb.m_id = id := by
  unfold Album.get
  by_cases hc : QHash.contains st.s_albums id = true
  · simp only [hc, if_true]
    refine ⟨h, ?_⟩
    obtain ⟨e, he, hk, hv⟩ := QHash.value_of_contains st.s_albums id none hc
    obtain ⟨a, ha, hid⟩ := h.2 e he
    exact ⟨a, by rw [hv, ha], by rw [hid, hk]⟩
  · by_cases hp : id > 0
    · simp only [hc, hp, if_true, Bool.false_eq_true, if_false]
      refine ⟨⟨h.1, ?_⟩, ⟨_, rfl, rfl⟩⟩
      intro e he
      unfold QHash.insert at he
      rcases List.mem_cons.mp he with he | he
      · subst he
        exact ⟨_, rfl, rfl⟩
      · exact h.2 e (List.mem_filter.mp he).1
    · simp only [hc, hp, Bool.false_eq_true, if_false]
      exact ⟨⟨h.1, h.2⟩, ⟨_, rfl, rfl⟩⟩

theorem artistListOf_filed (sortname : QString → QString) (id : Int)
    (names : List (Option QString)) (st : State) (h : st.filed) :
    (artistListOf sortname id st names).1.filed ∧
    (artistListOf sortname id st names).2.length = names.length ∧
    ∀ a ∈ (artistListOf sortname id st names).2,
      ∃ art : Artist, a = some art ∧ art.m_id = toUnsigned id := by
  induction names generalizing st with
  | nil => exact ⟨h, rfl, by intro a ha; simp [artistListOf] at ha⟩
  | cons name names ih =>
    unfold artistListOf
    have hg := Artist.get_filed sortname st (toUnsigned id) (toQString name) h
    have hr := ih _ hg.1
    refine ⟨hr.1, by simp [hr.2.1], ?_⟩
    intro a ha
    rcases List.mem_cons.mp ha with ha | ha
    · subst ha
      exact hg.2
    · exact hr.2.2 a ha

theorem artistListOf_length (sortname : QString → QString) (id : Int)
    (names : List (Option QString)) (st : State) :
    (artistListOf sortname id st names).2.length = names.length := by
  induction names generalizing st with
  | nil => rfl
  | cons name names ih =>
    unfold artistListOf
    simp [ih]

theorem albumListOf_filed (sortname : QString → QString) (id : Int)
    (rows : List (Option QString × Option Int × Option QString)) (st : State) (h : st.filed) :
    (albumListOf sortname id st rows).1.filed ∧
    (albumListOf sortname id st rows).2.length = rows.length ∧
    ∀ a ∈ (albumListOf sortname id st rows).2,
      ∃ alb : Album, a = some alb ∧ alb.m_id = toUnsigned id := by
  induction rows generalizing st with
  | nil => exact ⟨h, rfl, by intro a ha; simp [albumListOf] at ha⟩
  | cons r rs ih =>
    unfold albumListOf
    have hg := Artist.get_filed sortname st (toUInt r.2.1) (toQString r.2.2) h
    have hb := album_get_filed (Artist.get sortname st (toUInt r.2.1) (toQString r.2.2)).2
      (toUnsigned id) (toQString r.1)
      (Artist.get sortname st (toUInt r.2.1) (toQString r.2.2)).1 hg.1
    have hr := ih _ hb.1
    refine ⟨hr.1, by simp [hr.2.1], ?_⟩
    intro a ha
    rcases List.mem_cons.mp ha with ha | ha
    · subst ha
      exact hb.2
    · exact hr.2.2 a ha

theorem albumListOf_length (sortname : QString → QString) (id : Int)
    (rows : List (Option QString × Option Int × Option QString)) (st : State) :
    (albumListOf sortname id st rows).2.length = rows.length := by
  induction rows generalizing st with
  | nil => rfl
  | cons r rs ih =>
    unfold albumListOf
    simp [ih]

/-! ## The suggestion signals, one by one -/

theorem artistSuggestions_signals (env : Env) (qid : QString) (pairs : List scorepair_t)
    (st : State) (F : Prop) (hF : F → st.filed) :
    List.Forall₂
      (fun p e => ∃ l : List artist_ptr, e = Event.artists qid l ∧
        l.length = (env.lib.artistName p.1).length ∧
        (F → ∀ a ∈ l, ∃ art : Artist, a = some art ∧ art.m_id = toUnsigned p.1))
      pairs ((artistSuggestions env qid st pairs).2.filter Event.isArtists) ∧
    (F → (artistSuggestions env qid st pairs).1.filed) := by
  induction pairs generalizing st with
  | nil => exact ⟨List.Forall₂.nil, hF⟩
  | cons p ps ih =>
    unfold artistSuggestions
    simp only [List.filter_cons, Event.isArtists, Bool.false_eq_true, if_false, if_true]
    have hr := ih (artistListOf env.lib.sortname p.1 st (env.lib.artistName p.1)).1
      (fun f => (artistListOf_filed _ _ _ _ (hF f)).1)
    refine ⟨List.Forall₂.cons ⟨_, rfl, artistListOf_length _ _ _ _, ?_⟩ hr.1, hr.2⟩
    intro f
    exact (artistListOf_filed _ _ _ _ (hF f)).2.2

theorem albumSuggestions_signals (env : Env) (qid : QString) (pairs : List scorepair_t)
    (st : State) (F : Prop) (hF : F → st.filed) :
    List.Forall₂
      (fun p e => ∃ l : List album_ptr, e = Event.albums qid l ∧
        l.length = (env.lib.albumInfo p.1).length ∧
        (F → ∀ a ∈ l, ∃ alb : Album, a = some alb ∧ alb.m_id = toUnsigned p.1))
      pairs ((albumSuggestions env qid st pairs).2.filter Event.isAlbums) ∧
    (F → (albumSuggestions env qid st pairs).1.filed) := by
  induction pairs generalizing st with
  | nil => exact ⟨List.Forall₂.nil, hF⟩
  | cons p ps ih =>
    unfold albumSuggestions
    simp only [List.filter_cons, Event.isAlbums, Bool.false_eq_true, if_false, if_true]
    have hr := ih (albumListOf env.lib.sortname p.1 st (env.lib.albumInfo p.1)).1
      (fun f => (albumListOf_filed _ _ _ _ (hF f)).1)
    refine ⟨List.Forall₂.cons ⟨_, rfl, albumListOf_length _ _ _ _, ?_⟩ hr.1, hr.2⟩
    intro f
    exact (albumListOf_filed _ _ _ _ (hF f)).2.2

theorem artistsOf_none (l : List Event) (h : l.filter Event.isArtists = []) :
    l.flatMap Event.artistsOf = [] := by
  induction l with
  | nil => rfl
  | cons e t ih =>
    rw [List.filter_cons] at h
    cases e <;> simp_all [List.flatMap_cons, Event.artistsOf, Event.isArtists]

theorem albumsOf_none (l : List Event) (h : l.filter Event.isAlbums = []) :
    l.flatMap Event.albumsOf = [] := by
  induction l with
  | nil => rfl
  | cons e t ih =>
    rw [List.filter_cons] at h
    cases e <;> simp_all [List.flatMap_cons, Event.albumsOf, Event.isAlbums]

/-- A `fullTextResolve` run begins with the three searches, the artist loop
from the start state and the album loop from the state the artist loop leaves;
what follows holds no `artists` and no `albums` signal. -/
theorem fullTextResolve_split_at (env : Env) (q : Query) (st : State) :
    ∃ tail : List Event,
      (fullTextResolve env q st).2 =
        fullTextSearches q
          ++ (artistSuggestions env q.id st
              (env.lib.searchTable "artist".toList q.fullTextQuery (some 20))).2
          ++ (albumSuggestions env q.id
              (artistSuggestions env q.id st
                (env.lib.searchTable "artist".toList q.fullTextQuery (some 20))).1
              (env.lib.searchTable "album".toList q.fullTextQuery (some 20))).2
          ++ tail ∧
      tail.filter Event.isArtists = [] ∧ tail.filter Event.isAlbums = [] := by
  unfold fullTextResolve
  by_cases hc : ((env.lib.searchTable "artist".toList q.fullTextQuery (some 20)).length == 0
      && (env.lib.searchTable "track".toList q.fullTextQuery (some 20)).length == 0
      && (env.lib.searchTable "album".toList q.fullTextQuery (some 20)).length == 0) = true
  · refine ⟨[Event.results q.id []], ?_, rfl, rfl⟩
    simp only [hc, if_true]
  · simp only [hc, if_false, Bool.false_eq_true]
    refine ⟨_, List.append_assoc _ _ _, ?_, ?_⟩
    · rw [List.filter_eq_nil_iff]
      intro e he
      simp only [List.mem_cons, List.mem_append, List.not_mem_nil, or_false] at he
      rcases he with (he | he) | he
      · subst he; simp [Event.isArtists]
      · obtain ⟨t, rfl⟩ := fullTextRows_events _ _ _ _ e he
        simp [Event.isArtists]
      · subst he; simp [Event.isArtists]
    · rw [List.filter_eq_nil_iff]
      intro e he
      simp only [List.mem_cons, List.mem_append, List.not_mem_nil, or_false] at he
      rcases he with (he | he) | he
      · subst he; simp [Event.isAlbums]
      · obtain ⟨t, rfl⟩ := fullTextRows_events _ _ _ _ e he
        simp [Event.isAlbums]
      · subst he; simp [Event.isAlbums]

/-- C12, as amended: the suggestion signals of `fullTextResolve`. The run
emits one `artists` signal for each artist candidate and one `albums` signal
for each album candidate, in the order of the candidates and with the query
id; the signal of a candidate holds one entry for each row the storage layer
returns for the candidate's id. The entries are the re-resolved entities:
taken together, in order, the Artists are exactly what the identity registry
returns for the calls `Artist::get( id, name )` with the id of the candidate
and the name of the row, run one after the other from the state at the start,
and the Albums are exactly what the album look-ups (artist of the row, then
`Album::get( id, name, artist )`) return, run from the state the artist calls
leave. When the caches are filed at the start, every entry is a non-null
Artist (Album) carrying the id of its candidate. Nothing of this depends on
the track candidates. -/
theorem suggestion_signals (env : Env) (q : Query) (st : State) :
    List.Forall₂
      (fun p e => ∃ l : List artist_ptr, e = Event.artists q.id l ∧
        l.length = (env.lib.artistName p.1).length ∧
        (st.filed → ∀ a ∈ l, ∃ art : Artist, a = some art ∧ art.m_id = toUnsigned p.1))
      (env.lib.searchTable "artist".toList q.fullTextQuery (some 20))
      ((fullTextResolve env q st).2.filter Event.isArtists) ∧
    List.Forall₂
      (fun p e => ∃ l : List album_ptr, e = Event.albums q.id l ∧
        l.length = (env.lib.albumInfo p.1).length ∧
        (st.filed → ∀ a ∈ l, ∃ alb : Album, a = some alb ∧ alb.m_id = toUnsigned p.1))
      (env.lib.searchTable "album".toList q.fullTextQuery (some 20))
      ((fullTextResolve env q st).2.filter Event.isAlbums) ∧
    (fullTextResolve env q st).2.flatMap Event.artistsOf
      = Artist.getEach env.lib.sortname st
          (artistCalls env.lib (env.lib.searchTable "artist".toList q.fullTextQuery (some 20))) ∧
    (fullTextResolve env q st).2.flatMap Event.albumsOf
      = Album.getEach env.lib.sortname
          (Artist.getMany env.lib.sortname st
            (artistCalls env.lib
              (env.lib.searchTable "artist".toList q.fullTextQuery (some 20))))
          (albumCalls env.lib (env.lib.searchTable "album".toList q.fullTextQuery (some 20))) := by
  obtain ⟨tail, htrace, ht1, ht2⟩ := fullTextResolve_split_at env q st
  have hs1 : (fullTextSearches q).filter Event.isArtists = [] := rfl
  have hs2 : (fullTextSearches q).filter Event.isAlbums = [] := rfl
  have ha := artistSuggestions_signals env q.id
    (env.lib.searchTable "artist".toList q.fullTextQuery (some 20)) st st.filed id
  have hb := albumSuggestions_signals env q.id
    (env.lib.searchTable "album".toList q.fullTextQuery (some 20))
    (artistSuggestions env q.id st
      (env.lib.searchTable "artist".toList q.fullTextQuery (some 20))).1 st.filed ha.2
  have hca := artistSuggestions_calls env q.id
    (env.lib.searchTable "artist".toList q.fullTextQuery (some 20)) st
  have hcb := albumSuggestions_calls env q.id
    (env.lib.searchTable "album".toList q.fullTextQuery (some 20))
    (artistSuggestions env q.id st
      (env.lib.searchTable "artist".toList q.fullTextQuery (some 20))).1
  rw [htrace]
  refine ⟨?_, ?_, ?_, ?_⟩
  · simp only [List.filter_append, hs1, ht1, (albumSuggestions_count env q.id _ _).2,
      List.nil_append, List.append_nil]
    exact ha.1
  · simp only [List.filter_append, hs2, ht2, (artistSuggestions_count env q.id _ st).2,
      List.nil_append, List.append_nil]
    exact hb.1
  · simp only [List.flatMap_append, artistsOf_none _ hs1, artistsOf_none _ ht1,
      artistsOf_none _ (albumSuggestions_count env q.id _ _).2, List.nil_append,
      List.append_nil]
    exact hca.2
  · simp only [List.flatMap_append, albumsOf_none _ hs2, albumsOf_none _ ht2,
      albumsOf_none _ (artistSuggestions_count env q.id _ st).2, List.nil_append,
      List.append_nil]
    rw [hcb.2, hca.1]

/-- Witness of `suggestion_signals`: with the two artist candidates 1 and 2 and
the album candidate 5 of the text "daft", run from the empty registry, the
`artists` signals carry the Artists "Daft Punk" and "Daft", newly created, and
the `albums` signal carries the Album "Discovery" with the Artist "Daft Punk"
created before. -/
theorem suggestion_signals_witness :
    (fullTextResolve { sampleEnv with lib := twoArtistsLib } (textQuery "daft")
        State.initial).2.flatMap Event.artistsOf
      = [some ⟨0, 1, "Daft Punk".toList, "daft punk".toList⟩,
         some ⟨1, 2, "Daft".toList, "daft".toList⟩] ∧
    (fullTextResolve { sampleEnv with lib := twoArtistsLib } (textQuery "daft")
        State.initial).2.flatMap Event.albumsOf
      = [some ⟨2, 5, "Discovery".toList,
          some ⟨0, 1, "Daft Punk".toList, "daft punk".toList⟩⟩] :=
  ⟨(suggestion_signals { sampleEnv with lib := twoArtistsLib } (textQuery "daft")
      State.initial).2.2.1.trans (by decide),
   (suggestion_signals { sampleEnv with lib := twoArtistsLib } (textQuery "daft")
      State.initial).2.2.2.trans (by decide)⟩

/-- Counterexample to C12 as stated ("two suggestion-list events ... for every
size of the candidate lists"). For a text without any candidate the run emits
no `artists` and no `albums` signal at all. For a text with the two artist
candidates 1 and 2 it emits two `artists` signals, one per candidate, and no
signal holds both artists. -/
theorem suggestion_signals_counterexample :
    sampleEnv.lib.searchTable "artist".toList (textQuery "zzz").fullTextQuery (some 20) = [] ∧
    (fullTextResolve sampleEnv (textQuery "zzz") State.initial).2.filter
        (fun e => e.isArtists || e.isAlbums) = [] ∧
    twoArtistsLib.searchTable "artist".toList (textQuery "daft").fullTextQuery (some 20)
      = [(1, 1/2), (2, 1/4)] ∧
    (fullTextResolve { sampleEnv with lib := twoArtistsLib } (textQuery "daft")
        State.initial).2.filter Event.isArtists
      = [Event.artists "q2".toList [some ⟨0, 1, "Daft Punk".toList, "daft punk".toList⟩],
         Event.artists "q2".toList [some ⟨1, 2, "Daft".toList, "daft".toList⟩]] := by
  refine ⟨by decide, by decide, by rfl, by decide⟩


end Tomahawk
